import Mathlib

/-!
# Reconciliation client of `helm.sh/helm/pkg/kube` (file `client.go`)

A shallow embedding of `Client.Create`, `Client.Delete`, `Client.Update` and of the
helpers they call (`perform`, `createResource`, `deleteResource`, `createPatch`,
`asVersioned`, `updateResource`, `skipIfNotFound`), of the readiness wait
(`watchUntilReady`, `waitForJob`, `waitForPodSuccess`), and of `manifestFile.sort` of
`helm.sh/helm/pkg/releaseutil` (file `manifest_sorter.go`).

Modelling decisions.

* The API server is a parameter: a deterministic function from the history of the
  exchanges made so far and the next request to the answer `(runtime.Object, error)`.
  Every remote call appends one `Event` (request and answer) to the trace, so the trace
  is the exact sequence of requests the client issued.
* Library functions (`json.Marshal`, `ConvertToVersion`, `jsonpatch.CreateMergePatch`,
  `strategicpatch.CreateTwoWayMergePatch`, `fmt.Sprintf` of a format without operands, the
  verb `%q`) are fields of the parameter `Runtime`. The verbs `%s` and `%v` print a string
  or the message of an error as it is.
* A `*resource.Info` is a value. `Info.Refresh` rewrites the cached object and resource
  version behind the pointer; none of the functions below reads them again afterwards,
  and the server is taken to answer under the name and namespace it was addressed by,
  so handles are kept unchanged by the refresh.
* Logging (`c.Log`, `log.Printf`) has no effect on control flow and is left out.
* Errors are compared structurally. The test `err == ErrNoObjectsVisited` of `Delete` is
  applied to what `perform` returns there, which is nil or that very value, since the
  callback of `Delete` never returns an error.
* `ResourceList.Visit`, `ResourceList.Get` and `ResourceList.Difference` live in
  `resource.go`, which is not among the sources; they are modelled from the specification.
* A watch is what it delivers within the timeout: the list of its events and how it ends
  (channel closed, or deadline passed). `watchtools.UntilWithoutRetry` is modelled on that
  list; `convertWithMapper` and the call `WatchSingle` are parameters.
* In `manifestFile.sort` the entries of the map are a list, in the order in which the loop
  ranges over them; `yaml.Unmarshal`, `strconv.Atoi` and the table `events` are parameters;
  `strings.Split`, `strings.TrimSpace` and `strings.ToLower` are written out for ASCII text.
-/

namespace Kube

/-! ## Errors -/

/-- The reason carried by an API status error (`metav1.StatusReason`). -/
inductive StatusReason where
  | NotFound
  | AlreadyExists
  | Conflict
  | Invalid
  | InternalError
  deriving DecidableEq, Repr

/-- Go `error` values, as far as the code tells them apart. -/
inductive Error where
  /-- An `*apierrors.StatusError` answered by the server. -/
  | status (reason : StatusReason) (msg : String)
  /-- The "not registered" conversion error of the scheme. -/
  | notRegistered (msg : String)
  /-- The result of `errors.New`, `errors.Errorf` or `fmt.Errorf`. -/
  | new (msg : String)
  /-- The result of `errors.Wrap cause msg`. -/
  | wrap (cause : Error) (msg : String)
  deriving DecidableEq, Repr

/-- The method `err.Error()`: the message of an error. -/
def errorString : Error → String
  | .status _ msg => msg
  | .notRegistered msg => msg
  | .new msg => msg
  | .wrap cause msg => msg ++ ": " ++ errorString cause

/-- The predicate `apierrors.IsNotFound` (it inspects the status reason of the error itself). -/
def IsNotFound : Option Error → Bool
  | some (.status .NotFound _) => true
  | _ => false

/-- The predicate `runtime.IsNotRegisteredError`. -/
def IsNotRegisteredError : Option Error → Bool
  | some (.notRegistered _) => true
  | _ => false

/-- ErrNoObjectsVisited indicates that during a visit operation, no matching objects were found. -/
def ErrNoObjectsVisited : Error := .new "no objects visited"

/-! ## Objects, handles and lists -/

/-- The dynamic Go type of a `runtime.Object`, as far as `createPatch` type-asserts on it. -/
inductive GoType where
  | Unstructured
  | CustomResourceDefinition
  | Typed
  deriving DecidableEq, Repr

/-- A non-nil `runtime.Object`: its dynamic type and its content. -/
structure RuntimeObject where
  goType : GoType
  data : String
  deriving DecidableEq, Repr

/-- The `schema.GroupVersionKind` of the REST mapping of a handle. -/
structure GroupVersionKind where
  Group : String
  Version : String
  Kind : String
  deriving DecidableEq, Repr

/-- A `*resource.Info`. `Mapping` stands for `info.Mapping.GroupVersionKind`; `Update`
dereferences the mapping unconditionally, so it is never nil here. -/
structure Info where
  Mapping : GroupVersionKind
  Namespace : String
  Name : String
  Object : RuntimeObject
  deriving DecidableEq, Repr

/-- ResourceList provides convenience methods for comparing collections of Infos. -/
abbrev ResourceList := List Info

/-- Modelled from the spec: the identity of a resource handle, which `ResourceList.Get` and
`ResourceList.Difference` (file `resource.go`, not among the sources) compare handles by.
Spec section 3: identity = (kind, namespace, name, apiVersion). -/
def Info.identity (i : Info) : String × String × String × String × String :=
  (i.Mapping.Kind, i.Namespace, i.Name, i.Mapping.Group, i.Mapping.Version)

/-- Modelled from the spec: `ResourceList.Get` (file `resource.go`, not among the sources).
Spec section 4.1: `Get(handle)` returns the handle of the list with that identity, or absent. -/
def ResourceList.Get (r : ResourceList) (info : Info) : Option Info :=
  r.find? (fun i => decide (i.identity = info.identity))

/-- Modelled from the spec: `ResourceList.Difference` (file `resource.go`, not among the
sources). Spec section 4.1: all handles in the receiver whose identity is absent from
`other`, order-preserving. -/
def ResourceList.Difference (r other : ResourceList) : ResourceList :=
  r.filter (fun i => decide (i.identity ∉ other.map Info.identity))

/-- Modelled from the spec: `ResourceList.Visit` (file `resource.go`, not among the sources).
Spec section 5: within one call, resources are visited in ResourceList order; section 4.2:
only per-resource patch failures are collected, any other failure of the callback fails the
call. The callback is run on each handle in order and the first error it returns ends the
visit. The state `σ` is what the callback closes over. -/
def ResourceList.Visit {σ : Type} (fn : Info → σ → Option Error × σ) :
    ResourceList → σ → Option Error × σ
  | [], st => (none, st)
  | info :: rest, st =>
    match fn info st with
    | (some err, st1) => (some err, st1)
    | (none, st1) => ResourceList.Visit fn rest st1

/-- Result contains the information of created, updated, and deleted resources
for various kube API calls. -/
structure Result where
  Created : ResourceList
  Updated : ResourceList
  Deleted : ResourceList
  deriving DecidableEq, Repr

/-- The value `&Result{}`. -/
def Result.empty : Result := ⟨[], [], []⟩

/-! ## The server and the trace of remote calls -/

/-- The patch format tag `types.PatchType`. -/
inductive PatchType where
  | StrategicMergePatchType
  | MergePatchType
  deriving DecidableEq, Repr

/-- A request sent to the API server. `get` is `helper.Get` in `Update`, `refresh` is
`target.Get()` in `updateResource` (the same read, issued from another place), `create` is
`helper.Create`, `patch` is `helper.Patch`, `delete` is `helper.DeleteWithOptions` with the
background propagation policy. -/
inductive Call where
  | get (info : Info)
  | refresh (info : Info)
  | create (info : Info)
  | patch (info : Info) (patchType : PatchType) (patch : String)
  | delete (info : Info)
  deriving DecidableEq, Repr

/-- The handle a request addresses. -/
def Call.info : Call → Info
  | .get i => i
  | .refresh i => i
  | .create i => i
  | .patch i _ _ => i
  | .delete i => i

/-- The answer `(runtime.Object, error)` of the server to a request. -/
inductive Answer where
  | ok (obj : RuntimeObject)
  | error (err : Error)
  deriving DecidableEq, Repr

/-- One exchange with the server: the request and its answer. -/
structure Event where
  call : Call
  resp : Answer
  deriving DecidableEq, Repr

/-- The API server: the answer to a request, given the exchanges made so far. -/
abbrev Server := List Event → Call → Answer

/-- Send one request: the answer, and the trace extended by the exchange. -/
def request (srv : Server) (tr : List Event) (c : Call) : Answer × List Event :=
  (srv tr c, tr ++ [⟨c, srv tr c⟩])

/-- The library functions the client calls. -/
structure Runtime where
  /-- The function `json.Marshal`, applied to an object that may be the nil interface. -/
  marshal : Option RuntimeObject → Except Error String
  /-- The call `converter.ConvertToVersion(info.Object, groupVersioner)` of `asVersioned`. -/
  convertToVersion : RuntimeObject → GroupVersionKind → Except Error RuntimeObject
  /-- The function `jsonpatch.CreateMergePatch`; on success the bytes it returns are the
  marshalled patch, never nil. -/
  createMergePatch : String → String → Except Error String
  /-- The function `strategicpatch.CreateTwoWayMergePatch`; on success the bytes it returns
  are the marshalled patch, never nil. -/
  createTwoWayMergePatch : String → String → RuntimeObject → Except Error String
  /-- The call `fmt.Sprintf(format)` without operands, which `errors.Errorf(format)` makes
  its message with: a percent sign in the format starts a verb and is rewritten. -/
  Sprintf : String → String
  /-- What the verb `%q` prints for a string (`strconv.Quote`): the string in double
  quotes, with quotes, backslashes and non-printable characters escaped. -/
  Quote : String → String

/-! ## `perform`, `createResource`, `deleteResource` -/

/-- The loop of `perform`: run `fn` on each handle in order, return the first error. -/
def performLoop {σ : Type} (fn : Info → σ → Option Error × σ) :
    ResourceList → σ → Option Error × σ
  | [], st => (none, st)
  | info :: rest, st =>
    match fn info st with
    | (some err, st1) => (some err, st1)
    | (none, st1) => performLoop fn rest st1

/-- The function `perform`; `σ` is the state the callback closes over. -/
def perform {σ : Type} (infos : ResourceList) (fn : Info → σ → Option Error × σ) (st : σ) :
    Option Error × σ :=
  if infos.length = 0 then (some ErrNoObjectsVisited, st)
  else performLoop fn infos st

/-- The function `createResource`: one create request; the refresh that follows a
successful create ignores errors and returns nil. -/
def createResource (srv : Server) (info : Info) (tr : List Event) : Option Error × List Event :=
  match request srv tr (.create info) with
  | (.error err, tr1) => (some err, tr1)
  | (.ok _, tr1) => (none, tr1)

/-- The function `deleteResource`: one delete request, whose error is returned. -/
def deleteResource (srv : Server) (info : Info) (tr : List Event) : Option Error × List Event :=
  match request srv tr (.delete info) with
  | (.error err, tr1) => (some err, tr1)
  | (.ok _, tr1) => (none, tr1)

/-! ## `Client.Create` -/

/-- What a reconciliation call returns: the pair `(*Result, error)`, with the trace of the
remote calls it made. -/
structure Outcome where
  result : Option Result
  err : Option Error
  trace : List Event
  deriving DecidableEq, Repr

/-- Create creates Kubernetes resources specified in the resource list. -/
def Create (srv : Server) (resources : ResourceList) : Outcome :=
  match perform resources (createResource srv) [] with
  | (some err, tr) => ⟨none, some err, tr⟩
  | (none, tr) => ⟨some ⟨resources, [], []⟩, none, tr⟩

/-! ## `Client.Delete` -/

/-- The method `skipIfNotFound`. -/
def skipIfNotFound (err : Option Error) : Option Error :=
  if IsNotFound err then none else err

/-- The variables the callback of `Delete` closes over, with the trace. -/
structure DeleteState where
  trace : List Event
  errs : List Error
  res : Result
  deriving DecidableEq, Repr

/-- The callback `Delete` passes to `perform`. It always returns nil. -/
def deleteVisit (srv : Server) (info : Info) (st : DeleteState) : Option Error × DeleteState :=
  match deleteResource srv info st.trace with
  | (r, tr1) =>
    match skipIfNotFound r with
    | some err => (none, { st with trace := tr1, errs := st.errs ++ [err] })
    | none => (none, { st with trace := tr1, res := { st.res with Deleted := st.res.Deleted ++ [info] } })

/-- What `Delete` returns: the pair `(*Result, []error)`, with the trace of its remote calls. -/
structure DeleteOutcome where
  result : Option Result
  errs : List Error
  trace : List Event
  deriving DecidableEq, Repr

/-- Delete deletes Kubernetes resources specified in the resources list. It will
attempt to delete all resources even if one or more fail and collect any
errors. All successfully deleted items will be returned in the Deleted
ResourceList that is part of the result. -/
def Delete (srv : Server) (resources : ResourceList) : DeleteOutcome :=
  match perform resources (deleteVisit srv) ⟨[], [], Result.empty⟩ with
  | (err, st) =>
    let errs : List Error :=
      match err with
      | some e =>
        st.errs ++ [if e = ErrNoObjectsVisited then Error.new "object not found, skipping delete" else e]
      | none => st.errs
    if errs ≠ [] then ⟨none, errs, st.trace⟩
    else ⟨some st.res, [], st.trace⟩

/-! ## `createPatch` and `updateResource` -/

/-- The function `asVersioned`: the converted object, or the object of the handle itself
with the conversion error. The group-versioner is the one of the mapping of the handle. -/
def asVersioned (rt : Runtime) (info : Info) : RuntimeObject × Option Error :=
  match rt.convertToVersion info.Object info.Mapping with
  | .error err => (info.Object, some err)
  | .ok obj => (obj, none)

/-- The function `createPatch`: the patch bytes (nil when the two serializations are
equal), the patch type and the error. -/
def createPatch (rt : Runtime) (target : Info) (current : Option RuntimeObject) :
    Option String × PatchType × Option Error :=
  match rt.marshal current with
  | .error err =>
    (none, .StrategicMergePatchType, some (.wrap err "serializing current configuration"))
  | .ok oldData =>
    match rt.marshal (some target.Object) with
    | .error err =>
      (none, .StrategicMergePatchType, some (.wrap err "serializing target configuration"))
    | .ok newData =>
      if oldData = newData then (none, .StrategicMergePatchType, none)
      else
        match asVersioned rt target with
        | (versionedObject, err) =>
          let isUnstructured := decide (versionedObject.goType = .Unstructured)
          let isCRD := decide (versionedObject.goType = .CustomResourceDefinition)
          if IsNotRegisteredError err || isUnstructured || isCRD then
            match rt.createMergePatch oldData newData with
            | .error e =>
              (none, .MergePatchType, some (.new ("failed to create merge patch: " ++ errorString e)))
            | .ok patch => (some patch, .MergePatchType, none)
          else
            match err with
            | some e =>
              (none, .StrategicMergePatchType,
                some (.new ("failed to get versionedObject: " ++ errorString e)))
            | none =>
              match rt.createTwoWayMergePatch oldData newData versionedObject with
              | .error e =>
                (none, .StrategicMergePatchType,
                  some (.new ("failed to create two-way merge patch: " ++ errorString e)))
              | .ok patch => (some patch, .StrategicMergePatchType, none)

/-- The function `updateResource`. The parameter `force` is the one of `updateResource`,
not the one of `Update`. -/
def updateResource (rt : Runtime) (srv : Server) (target : Info)
    (currentObj : Option RuntimeObject) (force : Bool) (tr : List Event) :
    Option Error × List Event :=
  match createPatch rt target currentObj with
  | (_, _, some err) => (some (.wrap err "failed to create patch"), tr)
  | (none, _, none) =>
    match request srv tr (.refresh target) with
    | (.error err, tr1) => (some (.wrap err "error trying to refresh resource information"), tr1)
    | (.ok _, tr1) => (none, tr1)
  | (some patch, patchType, none) =>
    match request srv tr (.patch target patchType patch) with
    | (.error err, tr1) =>
      if force then
        match deleteResource srv target tr1 with
        | (some e, tr2) => (some e, tr2)
        | (none, tr2) =>
          match createResource srv target tr2 with
          | (some e, tr3) => (some (.wrap e "failed to recreate resource"), tr3)
          | (none, tr3) => (none, tr3)
      else (some err, tr1)
    | (.ok _, tr1) => (none, tr1)

/-! ## `Client.Update` -/

/-- The variables the visitor of `Update` closes over (`res`, `updateErrors`), with the trace. -/
structure UpdateState where
  trace : List Event
  res : Result
  updateErrors : List String
  deriving DecidableEq, Repr

/-- The visitor `Update` passes to `target.Visit`. `existObject` is assigned the object
answered by `helper.Get` only in the branch where that call failed, and every path of that
branch returns; past it `existObject` is still nil, and it is set to the object of the
entry of `original` unless `force` is set. -/
def updateVisit (rt : Runtime) (srv : Server) (original : ResourceList) (force : Bool)
    (info : Info) (st : UpdateState) : Option Error × UpdateState :=
  match request srv st.trace (.get info) with
  | (.error err, tr1) =>
    if !IsNotFound (some err) then
      (some (.wrap err "could not get information about the resource"), { st with trace := tr1 })
    else
      match createResource srv info tr1 with
      | (some e, tr2) => (some (.wrap e "failed to create resource"), { st with trace := tr2 })
      | (none, tr2) =>
        (none, { st with trace := tr2, res := { st.res with Created := st.res.Created ++ [info] } })
  | (.ok _, tr1) =>
    match original.Get info with
    | none =>
      (some (.new ("no " ++ info.Mapping.Kind ++ " with the name " ++ rt.Quote info.Name ++
          " found")),
        { st with trace := tr1 })
    | some originalInfo =>
      let existObject : Option RuntimeObject := if !force then some originalInfo.Object else none
      match updateResource rt srv info existObject
          (info.Mapping.Kind != "CustomResourceDefinition") tr1 with
      | (some err, tr2) =>
        (none, { trace := tr2, updateErrors := st.updateErrors ++ [errorString err],
                 res := { st.res with Updated := st.res.Updated ++ [info] } })
      | (none, tr2) =>
        (none, { st with trace := tr2, res := { st.res with Updated := st.res.Updated ++ [info] } })

/-- The loop of `Update` over `original.Difference(target)`: a delete request for each
handle; only the handles whose delete succeeded are appended to `Deleted`. -/
def deleteStale (srv : Server) : ResourceList → List Event → ResourceList → List Event × ResourceList
  | [], tr, deleted => (tr, deleted)
  | info :: rest, tr, deleted =>
    match deleteResource srv info tr with
    | (some _, tr1) => deleteStale srv rest tr1 deleted
    | (none, tr1) => deleteStale srv rest tr1 (deleted ++ [info])

/-- The state of the visitor of `Update` before the first handle. -/
def UpdateState.init : UpdateState := ⟨[], Result.empty, []⟩

/-- Update reads in the current configuration and a target configuration from io.reader
and creates resources that do not already exist, updates resources that have been modified
in the target configuration and deletes resources from the current configuration that are
not present in the target configuration. -/
def Update (rt : Runtime) (srv : Server) (original target : ResourceList) (force : Bool) :
    Outcome :=
  match target.Visit (updateVisit rt srv original force) UpdateState.init with
  | (some err, st) => ⟨none, some err, st.trace⟩
  | (none, st) =>
    if st.updateErrors.length ≠ 0 then
      ⟨none, some (.new (rt.Sprintf (" && ".intercalate st.updateErrors))), st.trace⟩
    else
      match deleteStale srv (original.Difference target) st.trace st.res.Deleted with
      | (tr, deleted) => ⟨some { st.res with Deleted := deleted }, none, tr⟩

/-! ## Reading the trace -/

/-- The error a delete exchange adds to the errors `Delete` collects: the error of a failed
delete that is not NotFound. -/
def Event.failure (ev : Event) : Option Error :=
  match ev.resp with
  | .error e => if IsNotFound (some e) then none else some e
  | .ok _ => none

/-- The handle a delete exchange adds to `Deleted` in `Delete`: the handle of a delete that
contributed no error. -/
def Event.deleted (ev : Event) : Option Info :=
  match ev.failure with
  | some _ => none
  | none => some ev.call.info

/-- The handle of an exchange the server answered without error. -/
def Event.succeeded (ev : Event) : Option Info :=
  match ev.resp with
  | .error _ => none
  | .ok _ => some ev.call.info

/-- The error of an answer, nil when the request succeeded. -/
def Answer.err : Answer → Option Error
  | .ok _ => none
  | .error e => some e

/-- In the trace `tr` the exchange `b` comes right after the exchange `a`. -/
def NextAfter (tr : List Event) (a b : Event) : Prop :=
  ∃ pre post, tr = pre ++ a :: b :: post

/-- In the trace `tr` the exchanges `a`, `b`, `c` come one right after the other. -/
def InRow (tr : List Event) (a b c : Event) : Prop :=
  ∃ pre post, tr = pre ++ a :: b :: c :: post

/-- The answer is not an error. -/
def Answer.isOk : Answer → Bool
  | .ok _ => true
  | .error _ => false

/-- The exchanges made by sending a delete request for each handle of a list in order,
starting from the history `tr`. -/
def deleteEvents (srv : Server) : ResourceList → List Event → List Event
  | [], _ => []
  | info :: rest, tr =>
    ⟨.delete info, srv tr (.delete info)⟩ ::
      deleteEvents srv rest (tr ++ [⟨.delete info, srv tr (.delete info)⟩])

/-! ## Concrete resources, library and servers used in the scenarios -/

/-- The mapping of a Deployment. -/
def gvkDeployment : GroupVersionKind := ⟨"apps", "v1", "Deployment"⟩

/-- The mapping of a CustomResourceDefinition. -/
def gvkCRD : GroupVersionKind := ⟨"apiextensions.k8s.io", "v1beta1", "CustomResourceDefinition"⟩

/-- Deployment `a`, as last applied. -/
def resA0 : Info := ⟨gvkDeployment, "default", "a", ⟨.Typed, "a-v0"⟩⟩

/-- Deployment `a`, as declared now. -/
def resA1 : Info := ⟨gvkDeployment, "default", "a", ⟨.Typed, "a-v1"⟩⟩

/-- Deployment `b`. -/
def resB : Info := ⟨gvkDeployment, "default", "b", ⟨.Typed, "b-v0"⟩⟩

/-- Deployment `c`. -/
def resC : Info := ⟨gvkDeployment, "default", "c", ⟨.Typed, "c-v0"⟩⟩

/-- CustomResourceDefinition `x`, as last applied. -/
def crdX0 : Info := ⟨gvkCRD, "", "x", ⟨.CustomResourceDefinition, "x-v0"⟩⟩

/-- CustomResourceDefinition `x`, as declared now. -/
def crdX1 : Info := ⟨gvkCRD, "", "x", ⟨.CustomResourceDefinition, "x-v1"⟩⟩

/-- The text `fmt.Sprintf` writes for a verb without operand: a literal percent sign for
the verb `%`, and `%!c(MISSING)` for any other verb `c`. -/
def missingVerb (c : Char) : List Char :=
  if c.toNat = 37 then [c] else "%!".data ++ [c] ++ "(MISSING)".data

/-- The scan of `fmt.Sprintf(format)` without operands over the characters of the format.
The state is 0 in plain text, 1 after a percent sign while flags are read, 2 while the
digits of a width are read, 3 while the digits of a precision are read. The forms `*` and
`[n]` of a width, precision or argument index are not told apart from a verb. -/
def sprintfScan : Nat → List Char → List Char
  | 0, [] => []
  | _, [] => "%!(NOVERB)".data
  | 0, c :: cs => if c.toNat = 37 then sprintfScan 1 cs else c :: sprintfScan 0 cs
  | 1, c :: cs =>
    if c.toNat = 35 || c.toNat = 48 || c.toNat = 43 || c.toNat = 45 || c.toNat = 32 then
      sprintfScan 1 cs
    else if c.isDigit then sprintfScan 2 cs
    else if c.toNat = 46 then sprintfScan 3 cs
    else missingVerb c ++ sprintfScan 0 cs
  | 2, c :: cs =>
    if c.isDigit then sprintfScan 2 cs
    else if c.toNat = 46 then sprintfScan 3 cs
    else missingVerb c ++ sprintfScan 0 cs
  | _, c :: cs =>
    if c.isDigit then sprintfScan 3 cs
    else missingVerb c ++ sprintfScan 0 cs

/-- The hexadecimal digit of a number below sixteen. -/
def hexDigit (n : Nat) : Char :=
  if n < 10 then Char.ofNat (48 + n) else Char.ofNat (87 + n)

/-- What `strconv.Quote` writes for one character of ASCII text: an escape for the double
quote, the backslash and the control characters, the character itself otherwise. -/
def quoteChar (c : Char) : List Char :=
  if c.toNat = 34 || c.toNat = 92 then [Char.ofNat 92, c]
  else if c.toNat = 7 then [Char.ofNat 92, Char.ofNat 97]
  else if c.toNat = 8 then [Char.ofNat 92, Char.ofNat 98]
  else if c.toNat = 12 then [Char.ofNat 92, Char.ofNat 102]
  else if c.toNat = 10 then [Char.ofNat 92, Char.ofNat 110]
  else if c.toNat = 13 then [Char.ofNat 92, Char.ofNat 114]
  else if c.toNat = 9 then [Char.ofNat 92, Char.ofNat 116]
  else if c.toNat = 11 then [Char.ofNat 92, Char.ofNat 118]
  else if c.toNat < 32 || c.toNat = 127 then
    [Char.ofNat 92, Char.ofNat 120, hexDigit (c.toNat / 16), hexDigit (c.toNat % 16)]
  else [c]

/-- A library: an object marshals to its content, the nil interface to `null`, conversion
succeeds and keeps the object, and a patch shows the two serializations it was made from;
`Sprintf` and `Quote` are the functions of Go for ASCII text. -/
def rtPlain : Runtime where
  marshal := fun o =>
    match o with
    | none => .ok "null"
    | some obj => .ok obj.data
  convertToVersion := fun obj _ => .ok obj
  createMergePatch := fun o n => .ok (o ++ " => " ++ n)
  createTwoWayMergePatch := fun o n _ => .ok (o ++ " ~> " ++ n)
  Sprintf := fun format => String.mk (sprintfScan 0 format.data)
  Quote := fun s => String.mk ([Char.ofNat 34] ++ s.data.flatMap quoteChar ++ [Char.ofNat 34])

/-- The live object the scenario servers hold for a handle. -/
def liveOf (i : Info) : RuntimeObject := ⟨i.Object.goType, "live-" ++ i.Name⟩

/-- A server on which every request succeeds. -/
def srvAccept : Server := fun _ c => .ok (liveOf c.info)

/-- A server that rejects every patch and accepts everything else. -/
def srvRejectPatch : Server := fun _ c =>
  match c with
  | .patch _ _ _ => .error (.status .Conflict "conflict")
  | c => .ok (liveOf c.info)

/-- A server that rejects every patch with a message holding a percent sign and accepts
everything else. -/
def srvRejectQuota : Server := fun _ c =>
  match c with
  | .patch _ _ _ => .error (.status .Conflict "quota 100% used")
  | c => .ok (liveOf c.info)

/-- A server on which no resource exists: reads and deletes answer NotFound, creates succeed. -/
def srvGone : Server := fun _ c =>
  match c with
  | .create i => .ok i.Object
  | _ => .error (.status .NotFound "not found")

/-- A server on which the delete of `b` fails with an internal error and every other
request succeeds. -/
def srvDeleteBFails : Server := fun _ c =>
  match c with
  | .delete i => if i.Name = "b" then .error (.status .InternalError "boom") else .ok (liveOf i)
  | c => .ok (liveOf c.info)

/-- A server on which the create of `b` fails and every other request succeeds. -/
def srvCreateBFails : Server := fun _ c =>
  match c with
  | .create i => if i.Name = "b" then .error (.status .Invalid "invalid") else .ok i.Object
  | c => .ok (liveOf c.info)

/-! ## Waiting for readiness: `watchUntilReady`, `waitForJob`, `waitForPodSuccess` -/

/-- A `batch.JobCondition`; `CondType` is the field `Type`. -/
structure JobCondition where
  CondType : String
  Status : String
  Reason : String
  deriving DecidableEq, Repr

/-- The part of `batch.JobStatus` the code reads. -/
structure JobStatus where
  Conditions : List JobCondition
  Active : Int
  Failed : Int
  Succeeded : Int
  deriving DecidableEq, Repr

/-- The constant `batch.JobComplete`. -/
def JobComplete : String := "Complete"

/-- The constant `batch.JobFailed`. -/
def JobFailed : String := "Failed"

/-- The constant `v1.PodSucceeded`. -/
def PodSucceeded : String := "Succeeded"

/-- The constant `v1.PodFailed`. -/
def PodFailed : String := "Failed"

/-- The object carried by a watch event, by dynamic type: a `*batch.Job`, a `*v1.Pod` (its
name and `Status.Phase`), or an object of another type, of which only the type name is kept. -/
inductive WatchedObject where
  | Job (Status : JobStatus)
  | Pod (Name : String) (Phase : String)
  | Other (typeName : String)
  deriving DecidableEq, Repr

/-- The result of formatting an object with the verb `%T`. -/
def WatchedObject.typeName : WatchedObject → String
  | .Job _ => "*v1.Job"
  | .Pod _ _ => "*v1.Pod"
  | .Other t => t

/-- The type `watch.EventType`; `Bookmark` stands for every value the code has no case for. -/
inductive EventType where
  | Added
  | Modified
  | Deleted
  | Bookmark
  | Error
  deriving DecidableEq, Repr

/-- A `watch.Event`; `EType` is the field `Type`. -/
structure WatchEvent where
  EType : EventType
  Object : WatchedObject
  deriving DecidableEq, Repr

/-- The loop of `waitForJob` over `o.Status.Conditions`: the pair it returns from inside
the loop, or nothing when the loop runs to its end. -/
def waitForJobLoop : List JobCondition → Option (Bool × Option Error)
  | [] => none
  | c :: rest =>
    if c.CondType = JobComplete && c.Status = "True" then some (true, none)
    else if c.CondType = JobFailed && c.Status = "True" then
      some (true, some (.new ("job failed: " ++ c.Reason)))
    else waitForJobLoop rest

/-- waitForJob is a helper that waits for a job to complete.
This operates on an event returned from a watcher. -/
def waitForJob (obj : WatchedObject) (name : String) : Bool × Option Error :=
  match obj with
  | .Job status =>
    match waitForJobLoop status.Conditions with
    | some r => r
    | none => (false, none)
  | o => (true, some (.new ("expected " ++ name ++ " to be a *batch.Job, got " ++ o.typeName)))

/-- waitForPodSuccess is a helper that waits for a pod to complete.
This operates on an event returned from a watcher. -/
def waitForPodSuccess (obj : WatchedObject) (name : String) : Bool × Option Error :=
  match obj with
  | .Pod podName phase =>
    if phase = PodSucceeded then (true, none)
    else if phase = PodFailed then (true, some (.new ("pod " ++ podName ++ " failed")))
    else (false, none)
  | o => (true, some (.new ("expected " ++ name ++ " to be a *v1.Pod, got " ++ o.typeName)))

/-- The condition function `watchUntilReady` passes to `UntilWithoutRetry`. The function
`convertWithMapper` (file `converter.go`, not among the sources) is a parameter. -/
def readyCondition (convertWithMapper : WatchedObject → GroupVersionKind → WatchedObject)
    (info : Info) (kind : String) (e : WatchEvent) : Bool × Option Error :=
  let obj := convertWithMapper e.Object info.Mapping
  match e.EType with
  | .Added | .Modified =>
    if kind = "Job" then waitForJob obj info.Name
    else if kind = "Pod" then waitForPodSuccess obj info.Name
    else (true, none)
  | .Deleted => (true, none)
  | .Error => (true, some (.new ("failed to deploy " ++ info.Name)))
  | _ => (false, none)

/-- How a watch ends once the events of the stream are consumed: the channel is closed, or
the deadline of the context passes. -/
inductive StreamEnd where
  | Closed
  | Timeout
  deriving DecidableEq, Repr

/-- What a watch delivers within the timeout: its events in order, and how it ends. -/
structure WatchStream where
  events : List WatchEvent
  ending : StreamEnd
  deriving DecidableEq, Repr

/-- The error `watchtools.ErrWatchClosed`. -/
def ErrWatchClosed : Error := .new "watch closed before UntilWithoutRetry timeout"

/-- The error `wait.ErrWaitTimeout`. -/
def ErrWaitTimeout : Error := .new "timed out waiting for the condition"

/-- The library function `watchtools.UntilWithoutRetry` with one condition: the condition
is run on each event in order; the first error it returns ends the wait with that error,
the first event on which it reports done ends the wait without error, and a stream that
ends before either gives the error of its ending. -/
def UntilWithoutRetry (cond : WatchEvent → Bool × Option Error) (ending : StreamEnd) :
    List WatchEvent → Option Error
  | [] =>
    match ending with
    | .Closed => some ErrWatchClosed
    | .Timeout => some ErrWaitTimeout
  | e :: rest =>
    match cond e with
    | (_, some err) => some err
    | (true, none) => none
    | (false, none) => UntilWithoutRetry cond ending rest

/-- The method `watchUntilReady`: the error it returns, and the handles for which it opened a
watch. `watchSingle` is the call `WatchSingle` of the resource helper. -/
def watchUntilReady (watchSingle : Info → Except Error WatchStream)
    (convertWithMapper : WatchedObject → GroupVersionKind → WatchedObject) (info : Info) :
    Option Error × List Info :=
  let kind := info.Mapping.Kind
  if kind = "Job" ∨ kind = "Pod" then
    match watchSingle info with
    | .error err => (some err, [info])
    | .ok w => (UntilWithoutRetry (readyCondition convertWithMapper info kind) w.ending w.events, [info])
  else (none, [])

/-- The first status condition that decides a job: `Complete` or `Failed` with status
`True`. -/
def JobCondition.decisive (c : JobCondition) : Bool :=
  (c.CondType = "Complete" && c.Status = "True") || (c.CondType = "Failed" && c.Status = "True")

/-- The mapping of a ConfigMap. -/
def gvkConfigMap : GroupVersionKind := ⟨"", "v1", "ConfigMap"⟩

/-- The mapping of a Job. -/
def gvkJob : GroupVersionKind := ⟨"batch", "v1", "Job"⟩

/-- ConfigMap `settings`. -/
def resConfigMap : Info := ⟨gvkConfigMap, "default", "settings", ⟨.Unstructured, "settings-v0"⟩⟩

/-- Job `migrate`. -/
def resJob : Info := ⟨gvkJob, "default", "migrate", ⟨.Unstructured, "migrate-v0"⟩⟩

/-- A watch whose first event is an Error event, followed by an Added event. -/
def streamErrorFirst : WatchStream :=
  ⟨[⟨.Error, .Other "*v1.Status"⟩, ⟨.Added, .Other "*v1.ConfigMap"⟩], .Timeout⟩

/-- A job status whose conditions are Suspended=True, Failed=False, Failed=True with reason
`BackoffLimitExceeded`, Complete=True. -/
def statusFailedFirst : JobStatus :=
  ⟨[⟨"Suspended", "True", ""⟩, ⟨"Failed", "False", "old"⟩,
    ⟨"Failed", "True", "BackoffLimitExceeded"⟩, ⟨"Complete", "True", ""⟩], 0, 1, 0⟩

/-- A library on which every conversion fails with an error that is not a "not registered"
error. -/
def rtNoConversion : Runtime :=
  { rtPlain with convertToVersion := fun _ _ => .error (.new "conversion failed") }

end Kube

namespace Releaseutil

open Kube

/-! ## Sorting manifests into hooks and generic manifests (file `manifest_sorter.go`) -/

/-- The characters `strings.TrimSpace` removes, for ASCII input: space, tab, line feed,
vertical tab, form feed, carriage return. -/
def isSpace (c : Char) : Bool :=
  c.toNat = 32 || c.toNat = 9 || c.toNat = 10 || c.toNat = 11 || c.toNat = 12 || c.toNat = 13

/-- The pieces of a list of characters between the occurrences of a separator. -/
def splitChars (sep : Char) : List Char → List (List Char)
  | [] => [[]]
  | c :: cs =>
    if c = sep then [] :: splitChars sep cs
    else
      match splitChars sep cs with
      | [] => [[c]]
      | w :: ws => (c :: w) :: ws

/-- The call `strings.Split(s, ",")`. -/
def splitComma (s : String) : List String :=
  (splitChars (Char.ofNat 44) s.data).map String.mk

/-- The function `strings.TrimSpace`, for ASCII input. -/
def TrimSpace (s : String) : String :=
  String.mk ((s.data.dropWhile isSpace).reverse.dropWhile isSpace).reverse

/-- The function `strings.ToLower`, for ASCII input. -/
def ToLower (s : String) : String :=
  String.mk (s.data.map Char.toLower)

/-- The field `Metadata` of a `SimpleHead`; a nil or empty map of annotations is the empty
list. -/
structure Metadata where
  Name : String
  Annotations : List (String × String)
  deriving DecidableEq, Repr

/-- SimpleHead defines what the structure of the head of a manifest file is (file
`manifest.go`, not among the sources): the fields `sort` reads. -/
structure SimpleHead where
  Version : String
  Kind : String
  Metadata : Option Metadata
  deriving DecidableEq, Repr

/-- Manifest represents a manifest file, which has a name and some content. -/
structure Manifest where
  Name : String
  Content : String
  Head : SimpleHead
  deriving DecidableEq, Repr

/-- A `release.HookEvent`, a string type. -/
abbrev HookEvent := String

/-- The part of `release.Hook` that `sort` fills in. -/
structure Hook where
  Name : String
  Kind : String
  Path : String
  Manifest : String
  Events : List HookEvent
  Weight : Int
  DeletePolicies : List String
  deriving DecidableEq, Repr

/-- manifestFile represents a file that contains a manifest. The entries of the map are
listed in the order in which the loop of `sort` ranges over them. -/
structure manifestFile where
  entries : List String
  path : String
  apis : List String
  deriving DecidableEq, Repr

/-- The type `result`: an intermediate structure used during sorting. -/
structure result where
  hooks : List Hook
  generic : List Manifest
  deriving DecidableEq, Repr

/-- The constant `release.HookAnnotation`. -/
def HookAnnotation : String := "helm.sh/hook"

/-- The constant `release.HookWeightAnnotation`. -/
def HookWeightAnnotation : String := "helm.sh/hook-weight"

/-- The constant `release.HookDeleteAnnotation`. -/
def HookDeleteAnnotation : String := "helm.sh/hook-delete-policy"

/-- The lookup `m[key]` in a map of annotations. -/
def mapLookup (m : List (String × String)) (key : String) : Option String :=
  m.lookup key

/-- The annotations of an entry, empty when `Metadata` is nil. -/
def SimpleHead.annotations (entry : SimpleHead) : List (String × String) :=
  match entry.Metadata with
  | none => []
  | some md => md.Annotations

/-- hasAnyAnnotation returns true if the given entry has any annotations at all. -/
def hasAnyAnnotation (entry : SimpleHead) : Bool :=
  match entry.Metadata with
  | none => false
  | some md => md.Annotations.length != 0

/-- calculateHookWeight finds the weight in the hook weight annotation.
If no weight is found, the assigned weight is 0. `atoi` is `strconv.Atoi`. -/
def calculateHookWeight (atoi : String → Option Int) (entry : SimpleHead) : Int :=
  match atoi ((mapLookup entry.annotations HookWeightAnnotation).getD "") with
  | some hw => hw
  | none => 0

/-- operateAnnotationValues finds the given annotation and runs the operate function with
the value of that annotation; here it returns the values `operate` is run on, in order. -/
def operateAnnotationValues (entry : SimpleHead) (key : String) : List String :=
  match mapLookup entry.annotations key with
  | some dps => (splitComma dps).map (fun dp => ToLower (TrimSpace dp))
  | none => []

/-- The loop of `sort` over the hook types of an entry: the events collected so far, or
nothing as soon as a hook type is not a key of `events` (`isUnknownHook`). -/
def hookEvents (events : List (String × HookEvent)) : List String → List HookEvent → Option (List HookEvent)
  | [], acc => some acc
  | hookType :: rest, acc =>
    match events.lookup (ToLower (TrimSpace hookType)) with
    | none => none
    | some e => hookEvents events rest (acc ++ [e])

/-- The body of the loop of `sort` for one entry `m`: the error it returns, or the result
after the entry. `unmarshal` is `yaml.Unmarshal` into a `SimpleHead`, `events` is the table
`events`, whose keys written `release.HookX.String()` are constants of the package
`release`, not among the sources. The test of `entry.Version` against `file.apis` only logs
a warning. -/
def sortEntry (unmarshal : String → Except Error SimpleHead) (atoi : String → Option Int)
    (events : List (String × HookEvent)) (file : manifestFile) (m : String) (res : result) :
    Option Error × result :=
  match unmarshal m with
  | .error err => (some (.wrap err ("YAML parse error on " ++ file.path)), res)
  | .ok entry =>
    if ! hasAnyAnnotation entry then
      (none, { res with generic := res.generic ++ [⟨file.path, m, entry⟩] })
    else
      match mapLookup entry.annotations HookAnnotation with
      | none => (none, { res with generic := res.generic ++ [⟨file.path, m, entry⟩] })
      | some hookTypes =>
        let hw := calculateHookWeight atoi entry
        match hookEvents events (splitComma hookTypes) [] with
        | none => (none, res)
        | some evs =>
          (none, { res with hooks := res.hooks ++
            [{ Name := (entry.Metadata.map Metadata.Name).getD "", Kind := entry.Kind,
               Path := file.path, Manifest := m, Events := evs, Weight := hw,
               DeletePolicies := operateAnnotationValues entry HookDeleteAnnotation }] })

/-- The loop of `sort` over the entries of the file. -/
def sortLoop (unmarshal : String → Except Error SimpleHead) (atoi : String → Option Int)
    (events : List (String × HookEvent)) (file : manifestFile) :
    List String → result → Option Error × result
  | [], res => (none, res)
  | m :: rest, res =>
    match sortEntry unmarshal atoi events file m res with
    | (some err, res1) => (some err, res1)
    | (none, res1) => sortLoop unmarshal atoi events file rest res1

/-- sort takes a manifestFile object which may contain multiple resource definition
entries and sorts each entry by hook types, and saves the resulting hooks and
generic manifests (or non-hooks) to the result struct. -/
def manifestFile.sort (unmarshal : String → Except Error SimpleHead)
    (atoi : String → Option Int) (events : List (String × HookEvent)) (file : manifestFile)
    (res : result) : Option Error × result :=
  sortLoop unmarshal atoi events file file.entries res

/-- The table `events`, with the names of the hook events of helm for the keys the source
writes `release.HookX.String()`, and the two keys it writes out. -/
def eventsTable : List (String × HookEvent) :=
  [("pre-install", "pre-install"), ("post-install", "post-install"),
   ("pre-delete", "pre-delete"), ("post-delete", "post-delete"),
   ("pre-upgrade", "pre-upgrade"), ("post-upgrade", "post-upgrade"),
   ("pre-rollback", "pre-rollback"), ("post-rollback", "post-rollback"),
   ("test", "test"), ("test-success", "test"), ("crd-install", "crd-install")]

/-- A parser for the scenarios: the content `plain` is a ConfigMap without annotations,
`labelled` a ConfigMap with an annotation that is not the hook annotation, `hooked` a Job
with the hook annotation ` Pre-Install, post-install`, `mistyped` a Job with the hook
annotation `pre-instal`, and everything else fails to parse. -/
def unmarshalScenario (m : String) : Except Error SimpleHead :=
  if m = "plain" then .ok ⟨"v1", "ConfigMap", some ⟨"plain", []⟩⟩
  else if m = "labelled" then .ok ⟨"v1", "ConfigMap", some ⟨"labelled", [("owner", "team")]⟩⟩
  else if m = "hooked" then
    .ok ⟨"batch/v1", "Job", some ⟨"hooked", [("helm.sh/hook", " Pre-Install, post-install")]⟩⟩
  else if m = "mistyped" then
    .ok ⟨"batch/v1", "Job", some ⟨"mistyped", [("helm.sh/hook", "pre-instal")]⟩⟩
  else .error (.new "yaml: did not find expected key")

/-- A stand-in for `strconv.Atoi` in the scenarios: no annotation value parses. -/
def atoiNone (_ : String) : Option Int := none

/-- The file of the scenarios. -/
def fileScenario : manifestFile := ⟨["plain", "mistyped", "hooked", "labelled"], "templates/all.yaml", ["v1"]⟩

end Releaseutil

namespace Kube

/-! ## Lemmas on `Delete` and `Create` -/

theorem deleteEvents_calls (srv : Server) (l : ResourceList) (tr : List Event) :
    (deleteEvents srv l tr).map Event.call = l.map Call.delete := by
  induction l generalizing tr with
  | nil => rfl
  | cons i r ih => simp [deleteEvents, ih]

theorem performLoop_deleteVisit (srv : Server) (l : ResourceList) (st : DeleteState) :
    performLoop (deleteVisit srv) l st =
      (none, ⟨st.trace ++ deleteEvents srv l st.trace,
              st.errs ++ (deleteEvents srv l st.trace).filterMap Event.failure,
              { st.res with Deleted := st.res.Deleted ++
                  (deleteEvents srv l st.trace).filterMap Event.deleted }⟩) := by
  induction l generalizing st with
  | nil => simp [performLoop, deleteEvents]
  | cons i r ih =>
    simp only [performLoop, deleteVisit, deleteResource, request, deleteEvents]
    cases h : srv st.trace (.delete i) with
    | ok o =>
      simp [skipIfNotFound, IsNotFound, ih, Event.failure, Event.deleted, h, Call.info]
    | error e =>
      by_cases hn : IsNotFound (some e) = true
      · simp [skipIfNotFound, hn, ih, Event.failure, Event.deleted, h, Call.info]
      · simp [skipIfNotFound, hn, ih, Event.failure, Event.deleted, h, Call.info]

theorem Delete_nonempty (srv : Server) (l : ResourceList) (h : l ≠ []) :
    Delete srv l =
      if (deleteEvents srv l []).filterMap Event.failure ≠ [] then
        ⟨none, (deleteEvents srv l []).filterMap Event.failure, deleteEvents srv l []⟩
      else
        ⟨some ⟨[], [], (deleteEvents srv l []).filterMap Event.deleted⟩, [], deleteEvents srv l []⟩ := by
  have hl : ¬ l.length = 0 := by simpa using h
  simp [Delete, perform, hl, performLoop_deleteVisit, Result.empty]

theorem failure_not_found (ev : Event) (e : Error) (h : ev.failure = some e) :
    IsNotFound (some e) = false := by
  unfold Event.failure at h
  split at h
  · split at h
    · cases h
    · rename_i hn
      cases h
      simpa using hn
  · cases h

theorem deleteEvents_all_gone (srv : Server) (l : ResourceList) (tr : List Event)
    (hall : ∀ h i, i ∈ l → ∃ e, srv h (.delete i) = .error e ∧ IsNotFound (some e) = true) :
    (deleteEvents srv l tr).filterMap Event.failure = [] ∧
    (deleteEvents srv l tr).filterMap Event.deleted = l := by
  induction l generalizing tr with
  | nil => simp [deleteEvents]
  | cons i r ih =>
    obtain ⟨e, he, hn⟩ := hall tr i (by simp)
    have ih2 := ih (tr ++ [⟨.delete i, srv tr (.delete i)⟩])
      (fun h j hj => hall h j (by simp [hj]))
    have hf : Event.failure ⟨.delete i, srv tr (.delete i)⟩ = none := by
      simp [Event.failure, he, hn]
    have hd : Event.deleted ⟨.delete i, srv tr (.delete i)⟩ = some i := by
      simp [Event.deleted, hf, Call.info]
    simp only [deleteEvents, List.filterMap_cons, hf, hd, ih2, and_self]

theorem performLoop_createResource (srv : Server) (l : ResourceList) (tr : List Event) :
    (∀ tr1, performLoop (createResource srv) l tr = (none, tr1) →
      ∃ evs, tr1 = tr ++ evs ∧ evs.map Event.call = l.map Call.create ∧
        ∀ ev ∈ evs, ev.resp.isOk = true) ∧
    (∀ e tr1, performLoop (createResource srv) l tr = (some e, tr1) →
      ∃ pre i post evs, l = pre ++ i :: post ∧ tr1 = tr ++ evs ++ [⟨.create i, .error e⟩] ∧
        evs.map Event.call = pre.map Call.create ∧ (∀ ev ∈ evs, ev.resp.isOk = true) ∧
        srv (tr ++ evs) (.create i) = .error e) := by
  induction l generalizing tr with
  | nil =>
    constructor
    · intro tr1 h
      simp only [performLoop, Prod.mk.injEq, true_and] at h
      exact ⟨[], by simp [h], by simp, by simp⟩
    · intro e tr1 h
      simp [performLoop] at h
  | cons i r ih =>
    cases hs : srv tr (.create i) with
    | error e0 =>
      have hstep : performLoop (createResource srv) (i :: r) tr =
          (some e0, tr ++ [⟨.create i, .error e0⟩]) := by
        simp [performLoop, createResource, request, hs]
      rw [hstep]
      constructor
      · intro tr1 h
        simp at h
      · intro e tr1 h
        simp only [Prod.mk.injEq, Option.some.injEq] at h
        obtain ⟨he, ht⟩ := h
        subst he
        exact ⟨[], i, r, [], by simp, by simp [ht], by simp, by simp, by simpa using hs⟩
    | ok o =>
      have hstep : performLoop (createResource srv) (i :: r) tr =
          performLoop (createResource srv) r (tr ++ [⟨.create i, .ok o⟩]) := by
        simp [performLoop, createResource, request, hs]
      rw [hstep]
      obtain ⟨ih1, ih2⟩ := ih (tr ++ [⟨.create i, .ok o⟩])
      constructor
      · intro tr1 h
        obtain ⟨evs, h1, h2, h3⟩ := ih1 tr1 h
        refine ⟨⟨.create i, .ok o⟩ :: evs, by simp [h1], by simp [h2], ?_⟩
        intro ev hev
        rcases List.mem_cons.mp hev with rfl | hev
        · rfl
        · exact h3 ev hev
      · intro e tr1 h
        obtain ⟨pre, j, post, evs, h1, h2, h3, h4, h5⟩ := ih2 e tr1 h
        refine ⟨i :: pre, j, post, ⟨.create i, .ok o⟩ :: evs, by simp [h1], by simp [h2],
          by simp [h3], ?_, by simpa using h5⟩
        intro ev hev
        rcases List.mem_cons.mp hev with rfl | hev
        · rfl
        · exact h4 ev hev

/-! ## `Client.Delete`: claims C4, C5, C6 -/

/-- C4: on the list [a, b] where the delete of a succeeds and the delete of b fails with an
internal error, `Delete` sends both deletes and returns the collected error with no result
at all: the handle of a, which was deleted, is not returned in any `Deleted` list. -/
theorem Delete_mixed_drops_result :
    Delete srvDeleteBFails [resA1, resB] =
      ⟨none, [.status .InternalError "boom"],
        [⟨.delete resA1, .ok (liveOf resA1)⟩,
         ⟨.delete resB, .error (.status .InternalError "boom")⟩]⟩ := by
  decide

/-- C5 (as stated, refuted): on the list [a] whose delete answers NotFound, `Delete` returns
a result whose `Deleted` list is [a] and no error, not an empty list and one error. -/
theorem Delete_all_absent_counterexample :
    (∀ h, ∃ e, srvGone h (.delete resA1) = .error e ∧ IsNotFound (some e) = true) ∧
    (Delete srvGone [resA1]).result = some ⟨[], [], [resA1]⟩ ∧
    (Delete srvGone [resA1]).errs = [] ∧
    (Delete srvGone [resA1]).errs.length ≠ 1 := by
  refine ⟨fun h => ⟨_, rfl, rfl⟩, ?_, ?_, ?_⟩ <;> decide

/-- C5 (amended): when every delete request answers NotFound, `Delete` on the empty list
sends nothing and returns no result and exactly one error, the rewritten "no objects
visited" error; on a non-empty list NotFound counts as success, so `Delete` returns no
error and a result whose `Deleted` list is the whole input list. -/
theorem Delete_all_absent (srv : Server) (resources : ResourceList)
    (hall : ∀ h i, i ∈ resources →
      ∃ e, srv h (.delete i) = .error e ∧ IsNotFound (some e) = true) :
    (resources = [] →
      Delete srv resources = ⟨none, [.new "object not found, skipping delete"], []⟩) ∧
    (resources ≠ [] →
      (Delete srv resources).result = some ⟨[], [], resources⟩ ∧
      (Delete srv resources).errs = []) := by
  constructor
  · intro h
    subst h
    simp [Delete, perform, ErrNoObjectsVisited]
  · intro h
    obtain ⟨h1, h2⟩ := deleteEvents_all_gone srv resources [] hall
    rw [Delete_nonempty srv resources h]
    simp [h1, h2]

/-- The amended C5 at the list [a, b] on a server where nothing exists. -/
theorem Delete_all_absent_witness :
    (Delete srvGone [resA1, resB]).result = some ⟨[], [], [resA1, resB]⟩ ∧
    (Delete srvGone [resA1, resB]).errs = [] :=
  (Delete_all_absent srvGone [resA1, resB] (fun _ _ _ => ⟨_, rfl, rfl⟩)).2 (by decide)

/-- C6: on a non-empty list `Delete` sends a delete request for every resource, in list
order, each answered by the server on the history so far, whatever the earlier answers
were; the errors it returns are exactly the errors of the failed deletes that are not
NotFound, in list order, and none of them is a NotFound error. -/
theorem Delete_attempts_all (srv : Server) (resources : ResourceList) (h : resources ≠ []) :
    (Delete srv resources).trace = deleteEvents srv resources [] ∧
    (Delete srv resources).trace.map Event.call = resources.map Call.delete ∧
    (Delete srv resources).errs = (Delete srv resources).trace.filterMap Event.failure ∧
    (∀ e ∈ (Delete srv resources).errs, IsNotFound (some e) = false) := by
  have key := Delete_nonempty srv resources h
  have htr : (Delete srv resources).trace = deleteEvents srv resources [] := by
    rw [key]; split <;> rfl
  have herr : (Delete srv resources).errs =
      (deleteEvents srv resources []).filterMap Event.failure := by
    rw [key]
    split
    · rfl
    · rename_i hne
      simp only [ne_eq, Decidable.not_not] at hne
      simp [hne]
  refine ⟨htr, ?_, ?_, ?_⟩
  · rw [htr, deleteEvents_calls]
  · rw [herr, htr]
  · intro e he
    rw [herr] at he
    obtain ⟨ev, _, hev⟩ := List.mem_filterMap.mp he
    exact failure_not_found ev e hev

/-- C6 at the list [b, a] on a server where the delete of b fails: both deletes are sent. -/
theorem Delete_attempts_all_witness :
    (Delete srvDeleteBFails [resB, resA1]).trace.map Event.call =
      [Call.delete resB, Call.delete resA1] ∧
    (Delete srvDeleteBFails [resB, resA1]).errs = [.status .InternalError "boom"] :=
  ⟨(Delete_attempts_all srvDeleteBFails [resB, resA1] (by decide)).2.1, by decide⟩

/-! ## `Client.Create`: claim C10 -/

/-- C10: `Create` on an empty list sends nothing and fails with ErrNoObjectsVisited and no
result. On a non-empty list it sends creates in list order; when it returns an error, that
error is the answer to the last create it sent, every create before it succeeded, no later
resource was attempted and there is no result; when it returns no error, every resource
was created in order and the `Created` list of the result is the input list; and it returns no
error when no create fails. -/
theorem Create_fail_fast (srv : Server) (resources : ResourceList) :
    (resources = [] → Create srv resources = ⟨none, some ErrNoObjectsVisited, []⟩) ∧
    (resources ≠ [] →
      ((Create srv resources).err = none →
        (Create srv resources).result = some ⟨resources, [], []⟩ ∧
        (Create srv resources).trace.map Event.call = resources.map Call.create ∧
        ∀ ev ∈ (Create srv resources).trace, ev.resp.isOk = true) ∧
      (∀ e, (Create srv resources).err = some e →
        (Create srv resources).result = none ∧
        ∃ pre i post evs, resources = pre ++ i :: post ∧
          (Create srv resources).trace = evs ++ [⟨.create i, .error e⟩] ∧
          evs.map Event.call = pre.map Call.create ∧
          (∀ ev ∈ evs, ev.resp.isOk = true) ∧
          srv evs (.create i) = .error e) ∧
      ((∀ h i, i ∈ resources → (srv h (.create i)).isOk = true) →
        (Create srv resources).err = none)) := by
  constructor
  · intro h
    subst h
    simp [Create, perform]
  · intro h
    have hl : ¬ resources.length = 0 := by simpa using h
    obtain ⟨h1, h2⟩ := performLoop_createResource srv resources []
    have hC : Create srv resources =
        match performLoop (createResource srv) resources [] with
        | (some err, tr) => ⟨none, some err, tr⟩
        | (none, tr) => ⟨some ⟨resources, [], []⟩, none, tr⟩ := by
      simp [Create, perform, hl]
    have hfail : ∀ e, (Create srv resources).err = some e →
        (Create srv resources).result = none ∧
        ∃ pre i post evs, resources = pre ++ i :: post ∧
          (Create srv resources).trace = evs ++ [⟨.create i, .error e⟩] ∧
          evs.map Event.call = pre.map Call.create ∧
          (∀ ev ∈ evs, ev.resp.isOk = true) ∧
          srv evs (.create i) = .error e := by
      intro e he
      rw [hC] at he ⊢
      rcases hp : performLoop (createResource srv) resources [] with ⟨r, tr1⟩
      rw [hp] at he
      cases r with
      | none => simp at he
      | some e0 =>
        simp only [Option.some.injEq] at he
        subst he
        obtain ⟨pre, i, post, evs, a1, a2, a3, a4, a5⟩ := h2 e0 tr1 hp
        exact ⟨rfl, pre, i, post, evs, a1, by simpa using a2, a3, a4, by simpa using a5⟩
    refine ⟨?_, hfail, ?_⟩
    · intro he
      rw [hC] at he ⊢
      rcases hp : performLoop (createResource srv) resources [] with ⟨r, tr1⟩
      rw [hp] at he
      cases r with
      | some e0 => simp at he
      | none =>
        obtain ⟨evs, a1, a2, a3⟩ := h1 tr1 hp
        simp only [List.nil_append] at a1
        subst a1
        exact ⟨rfl, a2, a3⟩
    · intro hok
      cases he : (Create srv resources).err with
      | none => rfl
      | some e =>
        obtain ⟨_, pre, i, post, evs, a1, _, _, _, a5⟩ := hfail e he
        have := hok evs i (by simp [a1])
        rw [a5] at this
        simp [Answer.isOk] at this

/-- C10 at the list [a, b, c]: on a server that accepts every create, and on one where the create of b fails. -/
theorem Create_fail_fast_witness :
    ((Create srvAccept [resA1, resB, resC]).result = some ⟨[resA1, resB, resC], [], []⟩ ∧
      (Create srvAccept [resA1, resB, resC]).trace.map Event.call =
        [Call.create resA1, Call.create resB, Call.create resC]) ∧
    ((Create srvCreateBFails [resA1, resB, resC]).result = none ∧
      (Create srvCreateBFails [resA1, resB, resC]).trace.map Event.call =
        [Call.create resA1, Call.create resB]) :=
  ⟨⟨(((Create_fail_fast srvAccept [resA1, resB, resC]).2 (by decide)).1 (by decide)).1,
    (((Create_fail_fast srvAccept [resA1, resB, resC]).2 (by decide)).1 (by decide)).2.1⟩,
   ⟨(((Create_fail_fast srvCreateBFails [resA1, resB, resC]).2 (by decide)).2.1
      (.status .Invalid "invalid") (by decide)).1, by decide⟩⟩

/-! ## The shapes of one step of `Update` -/

theorem createResource_eq (srv : Server) (info : Info) (tr : List Event) :
    createResource srv info tr =
      ((srv tr (.create info)).err, tr ++ [⟨.create info, srv tr (.create info)⟩]) := by
  unfold createResource request
  cases srv tr (.create info) <;> rfl

theorem deleteResource_eq (srv : Server) (info : Info) (tr : List Event) :
    deleteResource srv info tr =
      ((srv tr (.delete info)).err, tr ++ [⟨.delete info, srv tr (.delete info)⟩]) := by
  unfold deleteResource request
  cases srv tr (.delete info) <;> rfl

/-- The shapes of a run of `updateResource`. -/
theorem updateResource_cases (rt : Runtime) (srv : Server) (x : Info)
    (cur : Option RuntimeObject) (force : Bool) (tr : List Event) :
    (∃ p pt e, createPatch rt x cur = (p, pt, some e) ∧
      updateResource rt srv x cur force tr = (some (.wrap e "failed to create patch"), tr)) ∨
    (∃ pt e, createPatch rt x cur = (none, pt, none) ∧ srv tr (.refresh x) = .error e ∧
      updateResource rt srv x cur force tr =
        (some (.wrap e "error trying to refresh resource information"),
          tr ++ [⟨.refresh x, .error e⟩])) ∨
    (∃ pt o, createPatch rt x cur = (none, pt, none) ∧ srv tr (.refresh x) = .ok o ∧
      updateResource rt srv x cur force tr = (none, tr ++ [⟨.refresh x, .ok o⟩])) ∨
    (∃ p pt o, createPatch rt x cur = (some p, pt, none) ∧ srv tr (.patch x pt p) = .ok o ∧
      updateResource rt srv x cur force tr = (none, tr ++ [⟨.patch x pt p, .ok o⟩])) ∨
    (∃ p pt e, createPatch rt x cur = (some p, pt, none) ∧ srv tr (.patch x pt p) = .error e ∧
      force = false ∧
      updateResource rt srv x cur force tr = (some e, tr ++ [⟨.patch x pt p, .error e⟩])) ∨
    (∃ p pt e e2, createPatch rt x cur = (some p, pt, none) ∧
      srv tr (.patch x pt p) = .error e ∧ force = true ∧
      srv (tr ++ [⟨.patch x pt p, .error e⟩]) (.delete x) = .error e2 ∧
      updateResource rt srv x cur force tr =
        (some e2, tr ++ [⟨.patch x pt p, .error e⟩, ⟨.delete x, .error e2⟩])) ∨
    (∃ p pt e o e3, createPatch rt x cur = (some p, pt, none) ∧
      srv tr (.patch x pt p) = .error e ∧ force = true ∧
      srv (tr ++ [⟨.patch x pt p, .error e⟩]) (.delete x) = .ok o ∧
      srv (tr ++ [⟨.patch x pt p, .error e⟩, ⟨.delete x, .ok o⟩]) (.create x) = .error e3 ∧
      updateResource rt srv x cur force tr =
        (some (.wrap e3 "failed to recreate resource"),
          tr ++ [⟨.patch x pt p, .error e⟩, ⟨.delete x, .ok o⟩, ⟨.create x, .error e3⟩])) ∨
    (∃ p pt e o o2, createPatch rt x cur = (some p, pt, none) ∧
      srv tr (.patch x pt p) = .error e ∧ force = true ∧
      srv (tr ++ [⟨.patch x pt p, .error e⟩]) (.delete x) = .ok o ∧
      srv (tr ++ [⟨.patch x pt p, .error e⟩, ⟨.delete x, .ok o⟩]) (.create x) = .ok o2 ∧
      updateResource rt srv x cur force tr =
        (none, tr ++ [⟨.patch x pt p, .error e⟩, ⟨.delete x, .ok o⟩, ⟨.create x, .ok o2⟩])) := by
  rcases hcp : createPatch rt x cur with ⟨p, pt, e⟩
  cases e with
  | some e => exact Or.inl ⟨p, pt, e, rfl, by simp [updateResource, hcp]⟩
  | none =>
    cases p with
    | none =>
      cases hr : srv tr (.refresh x) with
      | error e =>
        exact Or.inr (Or.inl ⟨pt, e, rfl, rfl, by simp [updateResource, hcp, request, hr]⟩)
      | ok o =>
        exact Or.inr (Or.inr (Or.inl ⟨pt, o, rfl, rfl, by simp [updateResource, hcp, request, hr]⟩))
    | some p =>
      cases hp : srv tr (.patch x pt p) with
      | ok o =>
        exact Or.inr (Or.inr (Or.inr (Or.inl
          ⟨p, pt, o, rfl, hp, by simp [updateResource, hcp, request, hp]⟩)))
      | error e =>
        cases force with
        | false =>
          exact Or.inr (Or.inr (Or.inr (Or.inr (Or.inl
            ⟨p, pt, e, rfl, hp, rfl, by simp [updateResource, hcp, request, hp]⟩))))
        | true =>
          cases hd : srv (tr ++ [⟨.patch x pt p, .error e⟩]) (.delete x) with
          | error e2 =>
            exact Or.inr (Or.inr (Or.inr (Or.inr (Or.inr (Or.inl
              ⟨p, pt, e, e2, rfl, hp, rfl, hd, by
                simp [updateResource, hcp, request, hp, deleteResource_eq, hd, Answer.err]⟩)))))
          | ok o =>
            cases hc : srv (tr ++ [⟨.patch x pt p, .error e⟩, ⟨.delete x, .ok o⟩]) (.create x) with
            | error e3 =>
              exact Or.inr (Or.inr (Or.inr (Or.inr (Or.inr (Or.inr (Or.inl
                ⟨p, pt, e, o, e3, rfl, hp, rfl, hd, hc, by
                  simp [updateResource, hcp, request, hp, deleteResource_eq, hd, Answer.err,
                    createResource_eq, hc]⟩))))))
            | ok o2 =>
              exact Or.inr (Or.inr (Or.inr (Or.inr (Or.inr (Or.inr (Or.inr
                ⟨p, pt, e, o, o2, rfl, hp, rfl, hd, hc, by
                  simp [updateResource, hcp, request, hp, deleteResource_eq, hd, Answer.err,
                    createResource_eq, hc]⟩))))))

/-- The shapes of one run of the visitor of `Update`. -/
theorem updateVisit_cases (rt : Runtime) (srv : Server) (original : ResourceList)
    (force : Bool) (x : Info) (st : UpdateState) :
    (∃ e, srv st.trace (.get x) = .error e ∧ IsNotFound (some e) = false ∧
      updateVisit rt srv original force x st =
        (some (.wrap e "could not get information about the resource"),
          { st with trace := st.trace ++ [⟨.get x, .error e⟩] })) ∨
    (∃ e e2, srv st.trace (.get x) = .error e ∧ IsNotFound (some e) = true ∧
      srv (st.trace ++ [⟨.get x, .error e⟩]) (.create x) = .error e2 ∧
      updateVisit rt srv original force x st =
        (some (.wrap e2 "failed to create resource"),
          { st with trace := st.trace ++ [⟨.get x, .error e⟩, ⟨.create x, .error e2⟩] })) ∨
    (∃ e o, srv st.trace (.get x) = .error e ∧ IsNotFound (some e) = true ∧
      srv (st.trace ++ [⟨.get x, .error e⟩]) (.create x) = .ok o ∧
      updateVisit rt srv original force x st =
        (none, { st with trace := st.trace ++ [⟨.get x, .error e⟩, ⟨.create x, .ok o⟩],
                         res := { st.res with Created := st.res.Created ++ [x] } })) ∨
    (∃ o, srv st.trace (.get x) = .ok o ∧ original.Get x = none ∧
      updateVisit rt srv original force x st =
        (some (.new ("no " ++ x.Mapping.Kind ++ " with the name " ++ rt.Quote x.Name ++
          " found")),
          { st with trace := st.trace ++ [⟨.get x, .ok o⟩] })) ∨
    (∃ o oi, srv st.trace (.get x) = .ok o ∧ original.Get x = some oi ∧
      updateVisit rt srv original force x st =
        (none,
          { trace := (updateResource rt srv x (if force then none else some oi.Object)
              (x.Mapping.Kind != "CustomResourceDefinition")
              (st.trace ++ [⟨.get x, .ok o⟩])).2,
            res := { st.res with Updated := st.res.Updated ++ [x] },
            updateErrors := st.updateErrors ++
              (match (updateResource rt srv x (if force then none else some oi.Object)
                (x.Mapping.Kind != "CustomResourceDefinition")
                (st.trace ++ [⟨.get x, .ok o⟩])).1 with
               | some err => [errorString err]
               | none => []) })) := by
  cases hg : srv st.trace (.get x) with
  | error e =>
    by_cases hn : IsNotFound (some e) = true
    · cases hc : srv (st.trace ++ [⟨.get x, .error e⟩]) (.create x) with
      | error e2 =>
        exact Or.inr (Or.inl ⟨e, e2, rfl, hn, hc, by
          simp [updateVisit, request, hg, hn, createResource_eq, hc, Answer.err]⟩)
      | ok o =>
        exact Or.inr (Or.inr (Or.inl ⟨e, o, rfl, hn, hc, by
          simp [updateVisit, request, hg, hn, createResource_eq, hc, Answer.err]⟩))
    · simp only [Bool.not_eq_true] at hn
      exact Or.inl ⟨e, rfl, hn, by simp [updateVisit, request, hg, hn]⟩
  | ok o =>
    cases ho : original.Get x with
    | none =>
      exact Or.inr (Or.inr (Or.inr (Or.inl ⟨o, rfl, rfl, by
        simp [updateVisit, request, hg, ho]⟩)))
    | some oi =>
      refine Or.inr (Or.inr (Or.inr (Or.inr ⟨o, oi, rfl, rfl, ?_⟩)))
      simp only [updateVisit, request, hg, ho]
      cases force <;>
      · simp only [Bool.not_false, Bool.not_true, if_true, if_false, Bool.false_eq_true]
        split <;> simp_all

/-! ## Invariants of `Visit` -/

theorem Visit_invariant {σ : Type} (fn : Info → σ → Option Error × σ) (Q : σ → Prop)
    (l : ResourceList) (st : σ) (h0 : Q st)
    (hstep : ∀ x ∈ l, ∀ s, Q s → Q (fn x s).2) :
    Q (ResourceList.Visit fn l st).2 := by
  induction l generalizing st with
  | nil => simpa [ResourceList.Visit] using h0
  | cons x r ih =>
    have hx := hstep x (by simp) st h0
    rcases hf : fn x st with ⟨e, s1⟩
    rw [hf] at hx
    cases e with
    | some e => simpa [ResourceList.Visit, hf] using hx
    | none =>
      simp only [ResourceList.Visit, hf]
      exact ih s1 hx (fun y hy s hs => hstep y (by simp [hy]) s hs)

theorem Visit_invariant_ok {σ : Type} (fn : Info → σ → Option Error × σ) (P : σ → Prop)
    (l : ResourceList) (st : σ) (h0 : P st)
    (hstep : ∀ x ∈ l, ∀ s, P s → (fn x s).1 = none → P (fn x s).2)
    (hok : (ResourceList.Visit fn l st).1 = none) :
    P (ResourceList.Visit fn l st).2 := by
  induction l generalizing st with
  | nil => simpa [ResourceList.Visit] using h0
  | cons x r ih =>
    have hx := hstep x (by simp) st h0
    rcases hf : fn x st with ⟨e, s1⟩
    rw [hf] at hx
    cases e with
    | some e => simp [ResourceList.Visit, hf] at hok
    | none =>
      simp only [ResourceList.Visit, hf] at hok ⊢
      exact ih s1 (hx rfl) (fun y hy s hs => hstep y (by simp [hy]) s hs) hok

theorem Visit_abort {σ : Type} (fn : Info → σ → Option Error × σ) (P : σ → Prop)
    (l : ResourceList) (st : σ) (h0 : P st)
    (hstep : ∀ x ∈ l, ∀ s, P s → (fn x s).1 = none → P (fn x s).2)
    (err : Error) (herr : (ResourceList.Visit fn l st).1 = some err) :
    ∃ x ∈ l, ∃ s, P s ∧ fn x s = (some err, (ResourceList.Visit fn l st).2) := by
  induction l generalizing st with
  | nil => simp [ResourceList.Visit] at herr
  | cons x r ih =>
    have hx := hstep x (by simp) st h0
    rcases hf : fn x st with ⟨e, s1⟩
    rw [hf] at hx
    cases e with
    | some e =>
      simp only [ResourceList.Visit, hf, Option.some.injEq] at herr ⊢
      subst herr
      exact ⟨x, by simp, st, h0, hf⟩
    | none =>
      simp only [ResourceList.Visit, hf] at herr ⊢
      obtain ⟨y, hy, s, hs, hfy⟩ :=
        ih s1 (hx rfl) (fun y hy s hs => hstep y (by simp [hy]) s hs) herr
      exact ⟨y, by simp [hy], s, hs, hfy⟩

/-- Reaching the step of the resource with identity `k`: `A` holds until that step, the step
establishes `B`, and the steps of the other resources keep `A` and keep `B`. -/
theorem Visit_keyed {σ : Type} (fn : Info → σ → Option Error × σ) (k : String × String × String × String × String)
    (A B : σ → Prop) (l : ResourceList) (st : σ)
    (hid : (l.map Info.identity).Nodup) (h0 : A st) (hAB : ∀ s, A s → B s)
    (hself : ∀ x s, x.identity = k → A s → B (fn x s).2)
    (hA : ∀ x s, x.identity ≠ k → A s → A (fn x s).2)
    (hB : ∀ x s, x.identity ≠ k → B s → B (fn x s).2) :
    B (ResourceList.Visit fn l st).2 := by
  induction l generalizing st with
  | nil => simpa [ResourceList.Visit] using hAB st h0
  | cons x r ih =>
    simp only [List.map_cons, List.nodup_cons, List.mem_map, not_exists, not_and] at hid
    obtain ⟨hx, hr⟩ := hid
    by_cases hk : x.identity = k
    · have hb := hself x st hk h0
      rcases hf : fn x st with ⟨e, s1⟩
      rw [hf] at hb
      cases e with
      | some e => simpa [ResourceList.Visit, hf] using hb
      | none =>
        simp only [ResourceList.Visit, hf]
        exact Visit_invariant fn B r s1 hb
          (fun y hy s hs => hB y s (fun h => hx y hy (by rw [h, hk])) hs)
    · have ha := hA x st hk h0
      rcases hf : fn x st with ⟨e, s1⟩
      rw [hf] at ha
      cases e with
      | some e => simpa [ResourceList.Visit, hf] using hAB s1 ha
      | none =>
        simp only [ResourceList.Visit, hf]
        exact ih s1 hr ha

/-! ## The frame of one step of `Update` -/

/-- What one step of the visitor changes: it appends exchanges that all address the visited
handle, may append that handle to `Created` or `Updated`, leaves `Deleted` alone, and may
append to `updateErrors`. -/
theorem updateVisit_frame (rt : Runtime) (srv : Server) (original : ResourceList)
    (force : Bool) (x : Info) (st : UpdateState) :
    ∃ evs c u errs,
      (updateVisit rt srv original force x st).2.trace = st.trace ++ evs ∧
      (∀ ev ∈ evs, ev.call.info = x) ∧
      (updateVisit rt srv original force x st).2.res.Created = st.res.Created ++ c ∧
      (∀ y ∈ c, y = x) ∧
      (updateVisit rt srv original force x st).2.res.Updated = st.res.Updated ++ u ∧
      (∀ y ∈ u, y = x) ∧
      (updateVisit rt srv original force x st).2.res.Deleted = st.res.Deleted ∧
      (updateVisit rt srv original force x st).2.updateErrors = st.updateErrors ++ errs := by
  rcases updateVisit_cases rt srv original force x st with
    ⟨e, _, _, h⟩ | ⟨e, e2, _, _, _, h⟩ | ⟨e, o, _, _, _, h⟩ | ⟨o, _, _, h⟩ | ⟨o, oi, _, _, h⟩
  · rw [h]; exact ⟨_, [], [], [], rfl, by simp [Call.info], by simp, by simp, by simp, by simp, rfl, by simp⟩
  · rw [h]; exact ⟨_, [], [], [], rfl, by simp [Call.info], by simp, by simp, by simp, by simp, rfl, by simp⟩
  · rw [h]; exact ⟨_, [x], [], [], rfl, by simp [Call.info], by simp, by simp, by simp, by simp, rfl, by simp⟩
  · rw [h]; exact ⟨_, [], [], [], rfl, by simp [Call.info], by simp, by simp, by simp, by simp, rfl, by simp⟩
  · rw [h]
    rcases updateResource_cases rt srv x (if force then none else some oi.Object)
        (x.Mapping.Kind != "CustomResourceDefinition") (st.trace ++ [⟨.get x, .ok o⟩]) with
      ⟨p, pt, e, _, hu⟩ | ⟨pt, e, _, _, hu⟩ | ⟨pt, o2, _, _, hu⟩ | ⟨p, pt, o2, _, _, hu⟩ |
      ⟨p, pt, e, _, _, _, hu⟩ | ⟨p, pt, e, e2, _, _, _, _, hu⟩ |
      ⟨p, pt, e, o2, e3, _, _, _, _, _, hu⟩ | ⟨p, pt, e, o2, o3, _, _, _, _, _, hu⟩ <;>
    · rw [hu]
      exact ⟨_, [], [x], _, by simp only [List.append_assoc]; rfl, by simp [Call.info],
        by simp, by simp, by simp, by simp, rfl, rfl⟩

theorem Update_trace_addresses_target (rt : Runtime) (srv : Server)
    (original target : ResourceList) (force : Bool) :
    ∀ ev ∈ (target.Visit (updateVisit rt srv original force) UpdateState.init).2.trace,
      ev.call.info ∈ target := by
  apply Visit_invariant (updateVisit rt srv original force)
    (fun s => ∀ ev ∈ s.trace, ev.call.info ∈ target)
  · simp [UpdateState.init]
  · intro x hx s hs ev hev
    obtain ⟨evs, c, u, errs, h1, h2, -⟩ := updateVisit_frame rt srv original force x s
    rw [h1] at hev
    rcases List.mem_append.mp hev with h | h
    · exact hs ev h
    · rw [h2 ev h]; exact hx

theorem Update_visit_deleted (rt : Runtime) (srv : Server)
    (original target : ResourceList) (force : Bool) :
    (target.Visit (updateVisit rt srv original force) UpdateState.init).2.res.Deleted = [] := by
  apply Visit_invariant (updateVisit rt srv original force) (fun s => s.res.Deleted = [])
  · rfl
  · intro x _ s hs
    obtain ⟨evs, c, u, errs, -, -, -, -, -, -, h7, -⟩ :=
      updateVisit_frame rt srv original force x s
    rw [h7]; exact hs

theorem deleteStale_eq (srv : Server) (l : ResourceList) (tr : List Event)
    (deleted : ResourceList) :
    deleteStale srv l tr deleted =
      (tr ++ deleteEvents srv l tr,
        deleted ++ (deleteEvents srv l tr).filterMap Event.succeeded) := by
  induction l generalizing tr deleted with
  | nil => simp [deleteStale, deleteEvents]
  | cons i r ih =>
    simp only [deleteStale, deleteResource_eq, deleteEvents]
    cases h : srv tr (.delete i) <;>
      simp [Answer.err, ih, Event.succeeded, Call.info]

theorem Difference_identity (original target : ResourceList) (d : Info)
    (hd : d ∈ original.Difference target) : ∀ x ∈ target, x.identity ≠ d.identity := by
  intro x hx hxd
  simp only [ResourceList.Difference, List.mem_filter, decide_eq_true_eq, List.mem_map,
    not_exists, not_and] at hd
  exact hd.2 x hx hxd

/-- The three ways `Update` returns, in terms of the visit of `target`. -/
theorem Update_eq (rt : Runtime) (srv : Server) (original target : ResourceList)
    (force : Bool) :
    Update rt srv original target force =
      match (target.Visit (updateVisit rt srv original force) UpdateState.init) with
      | (some err, st) => ⟨none, some err, st.trace⟩
      | (none, st) =>
        if st.updateErrors ≠ [] then
          ⟨none, some (.new (rt.Sprintf (" && ".intercalate st.updateErrors))), st.trace⟩
        else
          ⟨some ⟨st.res.Created, st.res.Updated,
              (deleteEvents srv (original.Difference target) st.trace).filterMap Event.succeeded⟩,
            none, st.trace ++ deleteEvents srv (original.Difference target) st.trace⟩ := by
  have hD := Update_visit_deleted rt srv original target force
  unfold Update
  rcases hv : target.Visit (updateVisit rt srv original force) UpdateState.init with ⟨e, st⟩
  rw [hv] at hD
  cases e with
  | some e => rfl
  | none =>
    simp only [deleteStale_eq, ne_eq, List.length_eq_zero]
    split
    · rfl
    · simp only at hD
      simp [hD]

/-- C3 (as stated, refuted): with original = [x, b] and target = [x], where x is a
CustomResourceDefinition whose patch the server rejects, `Update` returns the aggregated
error and no result after the read and the patch of x; b is in `original.Difference(target)`
and no delete of b is sent. -/
theorem Update_patch_failure_counterexample :
    Update rtPlain srvRejectPatch [crdX0, resB] [crdX1] false =
      ⟨none, some (.new "conflict"),
        [⟨.get crdX1, .ok (liveOf crdX1)⟩,
         ⟨.patch crdX1 .MergePatchType "x-v0 => x-v1", .error (.status .Conflict "conflict")⟩]⟩ ∧
    ResourceList.Difference [crdX0, resB] [crdX1] = [resB] ∧
    (∀ ev ∈ (Update rtPlain srvRejectPatch [crdX0, resB] [crdX1] false).trace,
      ev.call ≠ .delete resB) := by
  decide

/-- C3 (amended): when at least one per-resource update failed inside `Update` (the visitor
recorded an entry in `updateErrors`), `Update` returns an error and no result; when the
visit itself did not fail the error is the one `errors.Errorf` makes from the entries joined
with " && ", the join being its format string, so that its message is `fmt.Sprintf` of the
join; and `Update` returns before the loop over `original.Difference(target)`: no request
at all is sent for any resource of that difference, so the stale deletions are skipped. -/
theorem Update_patch_failure_skips_deletes (rt : Runtime) (srv : Server)
    (original target : ResourceList) (force : Bool)
    (h : (target.Visit (updateVisit rt srv original force) UpdateState.init).2.updateErrors ≠ []) :
    (Update rt srv original target force).result = none ∧
    (Update rt srv original target force).err ≠ none ∧
    ((target.Visit (updateVisit rt srv original force) UpdateState.init).1 = none →
      (Update rt srv original target force).err = some (.new (rt.Sprintf (" && ".intercalate
        (target.Visit (updateVisit rt srv original force) UpdateState.init).2.updateErrors)))) ∧
    (∀ d ∈ original.Difference target, ∀ ev ∈ (Update rt srv original target force).trace,
      ev.call.info.identity ≠ d.identity) := by
  have hT := Update_trace_addresses_target rt srv original target force
  rw [Update_eq]
  rcases hv : target.Visit (updateVisit rt srv original force) UpdateState.init with ⟨e, st⟩
  rw [hv] at h hT
  simp only at h hT
  cases e with
  | some e =>
    refine ⟨rfl, by simp, by simp, ?_⟩
    intro d hd ev hev
    exact Difference_identity original target d hd _ (hT ev hev)
  | none =>
    simp only [ne_eq, h, not_false_eq_true, if_true]
    refine ⟨trivial, by simp, fun _ => trivial, ?_⟩
    intro d hd ev hev
    exact Difference_identity original target d hd _ (hT ev hev)

/-- The amended C3 at original = [x, b], target = [x] with the patch of x rejected, once
with a plain message and once with a message that holds a percent sign. -/
theorem Update_patch_failure_skips_deletes_witness :
    (Update rtPlain srvRejectPatch [crdX0, resB] [crdX1] false).result = none ∧
    (Update rtPlain srvRejectPatch [crdX0, resB] [crdX1] false).err ≠ none ∧
    (Update rtPlain srvRejectQuota [crdX0, resB] [crdX1] false).err =
      some (.new "quota 100%!u(MISSING)sed") ∧
    (∀ ev ∈ (Update rtPlain srvRejectQuota [crdX0, resB] [crdX1] false).trace,
      ev.call.info.identity ≠ resB.identity) :=
  ⟨(Update_patch_failure_skips_deletes rtPlain srvRejectPatch [crdX0, resB] [crdX1] false
      (by decide)).1,
   (Update_patch_failure_skips_deletes rtPlain srvRejectPatch [crdX0, resB] [crdX1] false
      (by decide)).2.1,
   (Update_patch_failure_skips_deletes rtPlain srvRejectQuota [crdX0, resB] [crdX1] false
      (by decide)).2.2.1 (by decide),
   (Update_patch_failure_skips_deletes rtPlain srvRejectQuota [crdX0, resB] [crdX1] false
      (by decide)).2.2.2 resB (by decide)⟩

/-- C8: whenever `Update` returns no error, its trace is the trace of the visit of `target`
followed by one delete request for each resource of `original.Difference(target)`, in that
order, and the `Deleted` list of the result is exactly the resources among them whose
delete the server answered without error; `Update` returns no error exactly when the visit
returned none and recorded no update error, whatever the answers to the deletes are.
Scenario: original = [a (v0), b], target = [a (v1)], every server call succeeding, gives
`Created` empty, `Updated` = [a], `Deleted` = [b]. -/
theorem Update_success_deleted (rt : Runtime) (srv : Server)
    (original target : ResourceList) (force : Bool) :
    ((Update rt srv original target force).err = none →
      (Update rt srv original target force).trace =
        (target.Visit (updateVisit rt srv original force) UpdateState.init).2.trace ++
          deleteEvents srv (original.Difference target)
            (target.Visit (updateVisit rt srv original force) UpdateState.init).2.trace ∧
      (deleteEvents srv (original.Difference target)
          (target.Visit (updateVisit rt srv original force) UpdateState.init).2.trace).map
        Event.call = (original.Difference target).map Call.delete ∧
      ∃ res, (Update rt srv original target force).result = some res ∧
        res.Deleted =
          (deleteEvents srv (original.Difference target)
            (target.Visit (updateVisit rt srv original force) UpdateState.init).2.trace).filterMap
            Event.succeeded) ∧
    ((Update rt srv original target force).err = none ↔
      (target.Visit (updateVisit rt srv original force) UpdateState.init).1 = none ∧
      (target.Visit (updateVisit rt srv original force) UpdateState.init).2.updateErrors = []) ∧
    Update rtPlain srvAccept [resA0, resB] [resA1] false =
      ⟨some ⟨[], [resA1], [resB]⟩, none,
        [⟨.get resA1, .ok (liveOf resA1)⟩,
         ⟨.patch resA1 .StrategicMergePatchType "a-v0 ~> a-v1", .ok (liveOf resA1)⟩,
         ⟨.delete resB, .ok (liveOf resB)⟩]⟩ := by
  refine ⟨?_, ?_, by decide⟩
  · intro h
    rw [Update_eq] at h ⊢
    rcases hv : target.Visit (updateVisit rt srv original force) UpdateState.init with ⟨e, st⟩
    rw [hv] at h
    cases e with
    | some e => simp at h
    | none =>
      simp only at h ⊢
      split at h
      · simp at h
      · rename_i hne
        rw [if_neg hne]
        exact ⟨rfl, deleteEvents_calls _ _ _, _, rfl, rfl⟩
  · rw [Update_eq]
    rcases hv : target.Visit (updateVisit rt srv original force) UpdateState.init with ⟨e, st⟩
    cases e with
    | some e => simp
    | none =>
      simp only [true_and]
      split
      · rename_i hne
        simp only [reduceCtorEq, false_iff]
        exact hne
      · rename_i hne
        simp only [ne_eq, Decidable.not_not] at hne
        simp [hne]

/-- C8 at original = [a, b, c], target = [a] on a server where the delete of b fails: the call succeeds and only c is in `Deleted`. -/
theorem Update_success_deleted_witness :
    (∃ res, (Update rtPlain srvDeleteBFails [resA0, resB, resC] [resA1] false).result = some res ∧
      res.Deleted = [resC]) ∧
    (Update rtPlain srvDeleteBFails [resA0, resB, resC] [resA1] false).trace.map Event.call =
      [.get resA1, .patch resA1 .StrategicMergePatchType "a-v0 ~> a-v1", .delete resB,
       .delete resC] :=
  ⟨((Update_success_deleted rtPlain srvDeleteBFails [resA0, resB, resC] [resA1] false).1
      (by decide)).2.2, by decide⟩

theorem Get_identity (original : ResourceList) (x y : Info) (h : x.identity = y.identity) :
    original.Get x = original.Get y := by
  simp [ResourceList.Get, h]

theorem deleteEvents_delete (srv : Server) (l : ResourceList) (tr : List Event) :
    ∀ ev ∈ deleteEvents srv l tr, ∃ i, i ∈ l ∧ ev.call = .delete i := by
  induction l generalizing tr with
  | nil => simp [deleteEvents]
  | cons i r ih =>
    intro ev hev
    simp only [deleteEvents, List.mem_cons] at hev
    rcases hev with rfl | hev
    · exact ⟨i, by simp, rfl⟩
    · obtain ⟨j, hj, h⟩ := ih _ ev hev
      exact ⟨j, by simp [hj], h⟩

/-- The exchanges of `updateResource` are appended to the trace; each is a refresh, a patch,
a delete or a create of the target, never the read `get`. -/
theorem updateResource_events (rt : Runtime) (srv : Server) (x : Info)
    (cur : Option RuntimeObject) (force : Bool) (tr : List Event) :
    ∃ evs, (updateResource rt srv x cur force tr).2 = tr ++ evs ∧
      ∀ ev ∈ evs, ev.call = .refresh x ∨
        (∃ pt p, ev.call = .patch x pt p ∧ createPatch rt x cur = (some p, pt, none)) ∨
        (ev.call = .delete x ∧ force = true) ∨ (ev.call = .create x ∧ force = true) := by
  rcases updateResource_cases rt srv x cur force tr with
    ⟨p, pt, e, hc, hu⟩ | ⟨pt, e, hc, _, hu⟩ | ⟨pt, o2, hc, _, hu⟩ | ⟨p, pt, o2, hc, _, hu⟩ |
    ⟨p, pt, e, hc, _, _, hu⟩ | ⟨p, pt, e, e2, hc, _, hf, _, hu⟩ |
    ⟨p, pt, e, o2, e3, hc, _, hf, _, _, hu⟩ | ⟨p, pt, e, o2, o3, hc, _, hf, _, _, hu⟩ <;>
  · rw [hu]
    refine ⟨_, by first | rfl | exact (List.append_nil _).symm, ?_⟩
    simp [*]
    try exact ⟨_, _, ⟨rfl, rfl⟩, rfl, rfl⟩

/-- While the visit goes on, every resource read successfully has an entry in `original`. -/
theorem updateVisit_read_has_original (rt : Runtime) (srv : Server) (original : ResourceList)
    (force : Bool) (x : Info) (s : UpdateState)
    (hs : ∀ ev ∈ s.trace, ∀ i o, ev = ⟨.get i, .ok o⟩ → original.Get i ≠ none)
    (hok : (updateVisit rt srv original force x s).1 = none) :
    ∀ ev ∈ (updateVisit rt srv original force x s).2.trace, ∀ i o,
      ev = ⟨.get i, .ok o⟩ → original.Get i ≠ none := by
  rcases updateVisit_cases rt srv original force x s with
    ⟨e, _, _, h⟩ | ⟨e, e2, _, _, _, h⟩ | ⟨e, o, _, _, _, h⟩ | ⟨o, _, _, h⟩ | ⟨o, oi, _, hoi, h⟩
  · rw [h] at hok; simp at hok
  · rw [h] at hok; simp at hok
  · rw [h]
    intro ev hev i o1 hev1
    simp only [List.mem_append, List.mem_cons, List.mem_singleton, List.not_mem_nil,
      or_false] at hev
    rcases hev with hev | rfl | rfl
    · exact hs ev hev i o1 hev1
    · simp at hev1
    · simp at hev1
  · rw [h] at hok; simp at hok
  · rw [h]
    obtain ⟨evs, h1, h2⟩ := updateResource_events rt srv x (if force then none else some oi.Object)
      (x.Mapping.Kind != "CustomResourceDefinition") (s.trace ++ [⟨.get x, .ok o⟩])
    simp only [h1]
    intro ev hev i o1 hev1
    simp only [List.mem_append, List.mem_singleton] at hev
    rcases hev with (hev | rfl) | hev
    · exact hs ev hev i o1 hev1
    · simp only [Event.mk.injEq, Call.get.injEq] at hev1
      rw [← hev1.1, hoi]; simp
    · subst hev1
      rcases h2 _ hev with h | ⟨pt, p, h, _⟩ | ⟨h, _⟩ | ⟨h, _⟩ <;> simp at h

/-- A resource without entry in `original` is never patched nor recorded under `Updated`. -/
theorem Update_no_patch_without_original (rt : Runtime) (srv : Server)
    (original target : ResourceList) (force : Bool) (info : Info)
    (hno : original.Get info = none) :
    (∀ ev ∈ (target.Visit (updateVisit rt srv original force) UpdateState.init).2.trace,
      ev.call.info.identity = info.identity → ∀ j pt p, ev.call ≠ .patch j pt p) ∧
    (∀ u ∈ (target.Visit (updateVisit rt srv original force) UpdateState.init).2.res.Updated,
      u.identity ≠ info.identity) := by
  apply Visit_invariant (updateVisit rt srv original force)
    (fun s => (∀ ev ∈ s.trace, ev.call.info.identity = info.identity →
        ∀ j pt p, ev.call ≠ .patch j pt p) ∧
      (∀ u ∈ s.res.Updated, u.identity ≠ info.identity))
  · simp [UpdateState.init, Result.empty]
  · intro x _ s ⟨hs1, hs2⟩
    by_cases hx : x.identity = info.identity
    · have hgx : original.Get x = none := by rw [Get_identity original x info hx, hno]
      rcases updateVisit_cases rt srv original force x s with
        ⟨e, _, _, h⟩ | ⟨e, e2, _, _, _, h⟩ | ⟨e, o, _, _, _, h⟩ | ⟨o, _, _, h⟩ |
        ⟨o, oi, _, hoi, h⟩
      · rw [h]
        refine ⟨?_, hs2⟩
        intro ev hev hid
        simp only [List.mem_append, List.mem_singleton] at hev
        rcases hev with hev | rfl
        · exact hs1 ev hev hid
        · simp
      · rw [h]
        refine ⟨?_, hs2⟩
        intro ev hev hid
        simp only [List.mem_append, List.mem_cons, List.mem_singleton, List.not_mem_nil,
          or_false] at hev
        rcases hev with hev | rfl | rfl
        · exact hs1 ev hev hid
        · simp
        · simp
      · rw [h]
        refine ⟨?_, hs2⟩
        intro ev hev hid
        simp only [List.mem_append, List.mem_cons, List.mem_singleton, List.not_mem_nil,
          or_false] at hev
        rcases hev with hev | rfl | rfl
        · exact hs1 ev hev hid
        · simp
        · simp
      · rw [h]
        refine ⟨?_, hs2⟩
        intro ev hev hid
        simp only [List.mem_append, List.mem_singleton] at hev
        rcases hev with hev | rfl
        · exact hs1 ev hev hid
        · simp
      · rw [hgx] at hoi; simp at hoi
    · obtain ⟨evs, c, u, errs, h1, h2, -, -, h5, h6, -⟩ :=
        updateVisit_frame rt srv original force x s
      constructor
      · intro ev hev hid
        rw [h1] at hev
        rcases List.mem_append.mp hev with hev | hev
        · exact hs1 ev hev hid
        · rw [h2 ev hev] at hid; exact absurd hid hx
      · intro y hy
        rw [h5] at hy
        rcases List.mem_append.mp hy with hy | hy
        · exact hs2 y hy
        · rw [h6 y hy]; exact hx

/-- C9: when a target resource is read successfully from the server (the read is in the
trace) but `original.Get` returns nil for it, `Update` fails: it returns no result and the
error "no KIND with the name NAME found", the name being printed by the verb `%q`; no patch
is ever sent for a handle of that identity and no handle of that identity is recorded under
`Updated`. -/
theorem Update_missing_original (rt : Runtime) (srv : Server)
    (original target : ResourceList) (force : Bool) (info : Info) (o : RuntimeObject)
    (hno : original.Get info = none)
    (hget : ⟨.get info, .ok o⟩ ∈ (Update rt srv original target force).trace) :
    (Update rt srv original target force).result = none ∧
    (Update rt srv original target force).err =
      some (.new ("no " ++ info.Mapping.Kind ++ " with the name " ++ rt.Quote info.Name ++
        " found")) ∧
    (∀ ev ∈ (Update rt srv original target force).trace,
      ev.call.info.identity = info.identity → ∀ j pt p, ev.call ≠ .patch j pt p) ∧
    (∀ u ∈ (target.Visit (updateVisit rt srv original force) UpdateState.init).2.res.Updated,
      u.identity ≠ info.identity) := by
  obtain ⟨hQ1, hQ2⟩ := Update_no_patch_without_original rt srv original target force info hno
  have hP0 : ∀ ev ∈ UpdateState.init.trace, ∀ i o, ev = ⟨.get i, .ok o⟩ →
      original.Get i ≠ none := by simp [UpdateState.init]
  have hPok := Visit_invariant_ok (updateVisit rt srv original force)
    (fun s => ∀ ev ∈ s.trace, ∀ i o, ev = ⟨.get i, .ok o⟩ → original.Get i ≠ none)
    target UpdateState.init hP0
    (fun x _ s hs hok => updateVisit_read_has_original rt srv original force x s hs hok)
  have hPab := Visit_abort (updateVisit rt srv original force)
    (fun s => ∀ ev ∈ s.trace, ∀ i o, ev = ⟨.get i, .ok o⟩ → original.Get i ≠ none)
    target UpdateState.init hP0
    (fun x _ s hs hok => updateVisit_read_has_original rt srv original force x s hs hok)
  have key : (target.Visit (updateVisit rt srv original force) UpdateState.init).1 =
      some (.new ("no " ++ info.Mapping.Kind ++ " with the name " ++ rt.Quote info.Name ++
        " found")) := by
    rw [Update_eq] at hget
    rcases hv : target.Visit (updateVisit rt srv original force) UpdateState.init with ⟨e, st⟩
    rw [hv] at hget hPok hPab
    cases e with
    | none =>
      exfalso
      simp only at hget hPok
      have hst := hPok trivial
      split at hget
      · exact hst _ hget info o rfl hno
      · simp only [List.mem_append] at hget
        rcases hget with hget | hget
        · exact hst _ hget info o rfl hno
        · obtain ⟨i, _, hi⟩ := deleteEvents_delete _ _ _ _ hget
          simp at hi
    | some err =>
      simp only at hget hPab ⊢
      obtain ⟨x, _, s, hs, hfx⟩ := hPab err rfl
      rcases updateVisit_cases rt srv original force x s with
        ⟨e, _, _, h⟩ | ⟨e, e2, _, _, _, h⟩ | ⟨e, o1, _, _, _, h⟩ | ⟨o1, _, _, h⟩ |
        ⟨o1, oi, _, hoi, h⟩
      · rw [h] at hfx
        simp only [Prod.mk.injEq] at hfx
        rw [← hfx.2] at hget
        simp only [List.mem_append, List.mem_singleton, Event.mk.injEq, reduceCtorEq,
          and_false, or_false] at hget
        exact absurd hno (hs _ hget info o rfl)
      · rw [h] at hfx
        simp only [Prod.mk.injEq] at hfx
        rw [← hfx.2] at hget
        simp only [List.mem_append, List.mem_cons, List.mem_singleton, Event.mk.injEq,
          reduceCtorEq, and_false, false_and, List.not_mem_nil, or_false] at hget
        exact absurd hno (hs _ hget info o rfl)
      · rw [h] at hfx; simp at hfx
      · rw [h] at hfx
        simp only [Prod.mk.injEq, Option.some.injEq] at hfx
        rw [← hfx.2] at hget
        simp only [List.mem_append, List.mem_singleton, Event.mk.injEq, Call.get.injEq,
          Answer.ok.injEq] at hget
        rcases hget with hget | ⟨rfl, _⟩
        · exact absurd hno (hs _ hget info o rfl)
        · rw [← hfx.1]
      · rw [h] at hfx; simp at hfx
  rw [Update_eq]
  rcases hv : target.Visit (updateVisit rt srv original force) UpdateState.init with ⟨e, st⟩
  rw [hv] at key hQ1 hQ2
  simp only at key
  subst key
  exact ⟨rfl, rfl, hQ1, hQ2⟩

/-- C9 at original = [b, c], target = [b, a], every resource existing on the server: b has
its entry in `original`, a has none. -/
theorem Update_missing_original_witness :
    ResourceList.Get [resB, resC] resB = some resB ∧
    ResourceList.Get [resB, resC] resA1 = none ∧
    (Update rtPlain srvAccept [resB, resC] [resB, resA1] false).result = none ∧
    (Update rtPlain srvAccept [resB, resC] [resB, resA1] false).err =
      some (.new "no Deployment with the name \"a\" found") ∧
    (∀ ev ∈ (Update rtPlain srvAccept [resB, resC] [resB, resA1] false).trace,
      ev.call.info.identity = resA1.identity → ∀ j pt p, ev.call ≠ .patch j pt p) :=
  ⟨by decide, by decide,
   (Update_missing_original rtPlain srvAccept [resB, resC] [resB, resA1] false resA1
      (liveOf resA1) (by decide) (by decide)).1,
   (Update_missing_original rtPlain srvAccept [resB, resC] [resB, resA1] false resA1
      (liveOf resA1) (by decide) (by decide)).2.1,
   (Update_missing_original rtPlain srvAccept [resB, resC] [resB, resA1] false resA1
      (liveOf resA1) (by decide) (by decide)).2.2.1⟩

theorem NextAfter_append (tr evs : List Event) (a b : Event) (h : NextAfter tr a b) :
    NextAfter (tr ++ evs) a b := by
  obtain ⟨pre, post, h⟩ := h
  exact ⟨pre, post ++ evs, by simp [h]⟩

theorem NextAfter_here (pre post : List Event) (a b : Event) :
    NextAfter (pre ++ [a] ++ b :: post) a b :=
  ⟨pre, post, by simp⟩

/-- The trace of `Update` is the trace of the visit of `target`, followed by deletes of
resources of `original.Difference(target)`. -/
theorem Update_trace_split (rt : Runtime) (srv : Server) (original target : ResourceList)
    (force : Bool) :
    ∃ dels, (Update rt srv original target force).trace =
        (target.Visit (updateVisit rt srv original force) UpdateState.init).2.trace ++ dels ∧
      ∀ ev ∈ dels, ∃ i, i ∈ original.Difference target ∧ ev.call = .delete i := by
  rw [Update_eq]
  rcases hv : target.Visit (updateVisit rt srv original force) UpdateState.init with ⟨e, st⟩
  cases e with
  | some e => exact ⟨[], by simp, by simp⟩
  | none =>
    simp only
    split
    · exact ⟨[], by simp, by simp⟩
    · exact ⟨_, rfl, deleteEvents_delete _ _ _⟩

/-- Without `force`, a patch is sent right after a successful read whenever `createPatch`
between the object of the entry of `original` and the target yields one, and every patch
sent is that one. -/
theorem updateVisit_patch_from_original (rt : Runtime) (srv : Server)
    (original : ResourceList) (x : Info) (s : UpdateState)
    (hs : (∀ i o, (⟨.get i, .ok o⟩ : Event) ∈ s.trace → ∀ oi p pt, original.Get i = some oi →
        createPatch rt i (some oi.Object) = (some p, pt, none) →
        ∃ r, NextAfter s.trace ⟨.get i, .ok o⟩ ⟨.patch i pt p, r⟩) ∧
      (∀ ev ∈ s.trace, ∀ i pt p, ev.call = .patch i pt p →
        ∃ oi, original.Get i = some oi ∧
          createPatch rt i (some oi.Object) = (some p, pt, none))) :
    (∀ i o, (⟨.get i, .ok o⟩ : Event) ∈ (updateVisit rt srv original false x s).2.trace →
        ∀ oi p pt, original.Get i = some oi →
        createPatch rt i (some oi.Object) = (some p, pt, none) →
        ∃ r, NextAfter (updateVisit rt srv original false x s).2.trace
          ⟨.get i, .ok o⟩ ⟨.patch i pt p, r⟩) ∧
      (∀ ev ∈ (updateVisit rt srv original false x s).2.trace, ∀ i pt p,
        ev.call = .patch i pt p →
        ∃ oi, original.Get i = some oi ∧
          createPatch rt i (some oi.Object) = (some p, pt, none)) := by
  obtain ⟨hs1, hs2⟩ := hs
  rcases updateVisit_cases rt srv original false x s with
    ⟨e, _, _, h⟩ | ⟨e, e2, _, _, _, h⟩ | ⟨e, o, _, _, _, h⟩ | ⟨o, _, hno, h⟩ |
    ⟨o, oi, _, hoi, h⟩
  · rw [h]
    constructor
    · intro i o1 hev oi p pt h1 h2
      simp only [List.mem_append, List.mem_singleton, Event.mk.injEq, reduceCtorEq,
        and_false, or_false] at hev
      obtain ⟨r, hr⟩ := hs1 i o1 hev oi p pt h1 h2
      exact ⟨r, NextAfter_append _ _ _ _ hr⟩
    · intro ev hev i pt p hc
      simp only [List.mem_append, List.mem_singleton] at hev
      rcases hev with hev | rfl
      · exact hs2 ev hev i pt p hc
      · simp at hc
  · rw [h]
    constructor
    · intro i o1 hev oi p pt h1 h2
      simp only [List.mem_append, List.mem_cons, List.mem_singleton, Event.mk.injEq,
        reduceCtorEq, and_false, false_and, List.not_mem_nil, or_false] at hev
      obtain ⟨r, hr⟩ := hs1 i o1 hev oi p pt h1 h2
      exact ⟨r, NextAfter_append _ _ _ _ hr⟩
    · intro ev hev i pt p hc
      simp only [List.mem_append, List.mem_cons, List.mem_singleton, List.not_mem_nil,
        or_false] at hev
      rcases hev with hev | rfl | rfl
      · exact hs2 ev hev i pt p hc
      · simp at hc
      · simp at hc
  · rw [h]
    constructor
    · intro i o1 hev oi p pt h1 h2
      simp only [List.mem_append, List.mem_cons, List.mem_singleton, Event.mk.injEq,
        reduceCtorEq, and_false, false_and, List.not_mem_nil, or_false] at hev
      obtain ⟨r, hr⟩ := hs1 i o1 hev oi p pt h1 h2
      exact ⟨r, NextAfter_append _ _ _ _ hr⟩
    · intro ev hev i pt p hc
      simp only [List.mem_append, List.mem_cons, List.mem_singleton, List.not_mem_nil,
        or_false] at hev
      rcases hev with hev | rfl | rfl
      · exact hs2 ev hev i pt p hc
      · simp at hc
      · simp at hc
  · rw [h]
    constructor
    · intro i o1 hev oi p pt h1 h2
      simp only [List.mem_append, List.mem_singleton, Event.mk.injEq, Call.get.injEq,
        Answer.ok.injEq] at hev
      rcases hev with hev | ⟨rfl, _⟩
      · obtain ⟨r, hr⟩ := hs1 i o1 hev oi p pt h1 h2
        exact ⟨r, NextAfter_append _ _ _ _ hr⟩
      · rw [hno] at h1; simp at h1
    · intro ev hev i pt p hc
      simp only [List.mem_append, List.mem_singleton] at hev
      rcases hev with hev | rfl
      · exact hs2 ev hev i pt p hc
      · simp at hc
  · rw [h]
    simp only [Bool.false_eq_true, if_false]
    obtain ⟨evs, h1, h2⟩ := updateResource_events rt srv x (some oi.Object)
      (x.Mapping.Kind != "CustomResourceDefinition") (s.trace ++ [⟨.get x, .ok o⟩])
    constructor
    · intro i o1 hev oi1 p pt hg hcp
      rw [h1] at hev ⊢
      simp only [List.mem_append, List.mem_singleton] at hev
      rcases hev with (hev | hev) | hev
      · obtain ⟨r, hr⟩ := hs1 i o1 hev oi1 p pt hg hcp
        exact ⟨r, NextAfter_append _ _ _ _ (NextAfter_append _ _ _ _ hr)⟩
      · simp only [Event.mk.injEq, Call.get.injEq, Answer.ok.injEq] at hev
        obtain ⟨rfl, rfl⟩ := hev
        rw [hoi] at hg
        simp only [Option.some.injEq] at hg
        subst hg
        rw [← h1]
        rcases updateResource_cases rt srv i (some oi.Object)
            (i.Mapping.Kind != "CustomResourceDefinition") (s.trace ++ [⟨.get i, .ok o1⟩]) with
          ⟨p1, pt1, e, hc, hu⟩ | ⟨pt1, e, hc, _, hu⟩ | ⟨pt1, o2, hc, _, hu⟩ |
          ⟨p1, pt1, o2, hc, _, hu⟩ | ⟨p1, pt1, e, hc, _, _, hu⟩ |
          ⟨p1, pt1, e, e2, hc, _, _, _, hu⟩ | ⟨p1, pt1, e, o2, e3, hc, _, _, _, _, hu⟩ |
          ⟨p1, pt1, e, o2, o3, hc, _, _, _, _, hu⟩
        · rw [hcp] at hc; simp at hc
        · rw [hcp] at hc; simp at hc
        · rw [hcp] at hc; simp at hc
        all_goals
          rw [hcp] at hc
          simp only [Prod.mk.injEq, Option.some.injEq, and_true] at hc
          obtain ⟨rfl, rfl⟩ := hc
          rw [hu]
          exact ⟨_, NextAfter_here _ _ _ _⟩
      · rcases h2 _ hev with h | ⟨pt, p, h, _⟩ | ⟨h, _⟩ | ⟨h, _⟩ <;> simp at h
    · intro ev hev i pt p hc
      rw [h1] at hev
      simp only [List.mem_append, List.mem_singleton] at hev
      rcases hev with (hev | rfl) | hev
      · exact hs2 ev hev i pt p hc
      · simp at hc
      · rcases h2 _ hev with h | ⟨pt1, p1, h, hcp⟩ | ⟨h, _⟩ | ⟨h, _⟩
        · rw [h] at hc; simp at hc
        · rw [h] at hc
          simp only [Call.patch.injEq] at hc
          obtain ⟨rfl, rfl, rfl⟩ := hc
          exact ⟨oi, hoi, hcp⟩
        · rw [h] at hc; simp at hc
        · rw [h] at hc; simp at hc

/-- C2 (as stated, refuted): with original = [a (v0)], target = [a (v1)] and a server holding
the live object `live-a`, `Update` without force reads a and then sends the patch computed
by `createPatch` from the object of the entry of `original` (`a-v0 ~> a-v1`), which differs
from the patch `createPatch` computes from the live object answered by the read
(`live-a ~> a-v1`). -/
theorem Update_patch_base_counterexample :
    Update rtPlain srvAccept [resA0] [resA1] false =
      ⟨some ⟨[], [resA1], []⟩, none,
        [⟨.get resA1, .ok (liveOf resA1)⟩,
         ⟨.patch resA1 .StrategicMergePatchType "a-v0 ~> a-v1", .ok (liveOf resA1)⟩]⟩ ∧
    createPatch rtPlain resA1 (some (liveOf resA1)) =
      (some "live-a ~> a-v1", .StrategicMergePatchType, none) ∧
    createPatch rtPlain resA1 (some resA0.Object) =
      (some "a-v0 ~> a-v1", .StrategicMergePatchType, none) := by
  decide

/-- C2 (amended): for every target resource that `Update` without force reads successfully
and that has the entry `oi` in `original`: when `createPatch` between the object of `oi`
(the last applied object, not the live object answered by the read) and the target yields
a patch, that patch is the request sent right after the read; and every patch `Update`
sends for that resource is the one `createPatch` yields from the object of `oi`. -/
theorem Update_patch_from_original (rt : Runtime) (srv : Server)
    (original target : ResourceList) (i : Info) (o : RuntimeObject) (oi : Info)
    (hget : ⟨.get i, .ok o⟩ ∈ (Update rt srv original target false).trace)
    (hoi : original.Get i = some oi) :
    (∀ p pt, createPatch rt i (some oi.Object) = (some p, pt, none) →
      ∃ r, NextAfter (Update rt srv original target false).trace
        ⟨.get i, .ok o⟩ ⟨.patch i pt p, r⟩) ∧
    (∀ ev ∈ (Update rt srv original target false).trace, ∀ pt p,
      ev.call = .patch i pt p → createPatch rt i (some oi.Object) = (some p, pt, none)) := by
  have hinv := Visit_invariant (updateVisit rt srv original false)
    (fun s => (∀ i o, (⟨.get i, .ok o⟩ : Event) ∈ s.trace → ∀ oi p pt,
        original.Get i = some oi →
        createPatch rt i (some oi.Object) = (some p, pt, none) →
        ∃ r, NextAfter s.trace ⟨.get i, .ok o⟩ ⟨.patch i pt p, r⟩) ∧
      (∀ ev ∈ s.trace, ∀ i pt p, ev.call = .patch i pt p →
        ∃ oi, original.Get i = some oi ∧
          createPatch rt i (some oi.Object) = (some p, pt, none)))
    target UpdateState.init (by simp [UpdateState.init])
    (fun x _ s hs => updateVisit_patch_from_original rt srv original x s hs)
  obtain ⟨h1, h2⟩ := hinv
  obtain ⟨dels, ht, hd⟩ := Update_trace_split rt srv original target false
  rw [ht] at hget ⊢
  constructor
  · intro p pt hcp
    rcases List.mem_append.mp hget with hg | hg
    · obtain ⟨r, hr⟩ := h1 i o hg oi p pt hoi hcp
      exact ⟨r, NextAfter_append _ _ _ _ hr⟩
    · obtain ⟨j, _, hj⟩ := hd _ hg
      simp at hj
  · intro ev hev pt p hc
    rcases List.mem_append.mp hev with hg | hg
    · obtain ⟨oi1, ho1, hcp⟩ := h2 ev hg i pt p hc
      rw [hoi] at ho1
      simp only [Option.some.injEq] at ho1
      rw [ho1]; exact hcp
    · obtain ⟨j, _, hj⟩ := hd _ hg
      rw [hj] at hc
      simp at hc

/-- The amended C2 at original = [a (v0)], target = [a (v1)]. -/
theorem Update_patch_from_original_witness :
    ∃ r, NextAfter (Update rtPlain srvAccept [resA0] [resA1] false).trace
      ⟨.get resA1, .ok (liveOf resA1)⟩
      ⟨.patch resA1 .StrategicMergePatchType "a-v0 ~> a-v1", r⟩ :=
  (Update_patch_from_original rtPlain srvAccept [resA0] [resA1] resA1 (liveOf resA1) resA0
    (by decide) (by decide)).1 "a-v0 ~> a-v1" .StrategicMergePatchType (by decide)

/-- A read answered NotFound is followed at once by a create of the same handle, and the
handle is in `Created` when that create succeeded. -/
theorem updateVisit_creates_absent (rt : Runtime) (srv : Server) (original : ResourceList)
    (force : Bool) (x : Info) (s : UpdateState)
    (hs : ∀ i e, (⟨.get i, .error e⟩ : Event) ∈ s.trace → IsNotFound (some e) = true →
      ∃ r, NextAfter s.trace ⟨.get i, .error e⟩ ⟨.create i, r⟩ ∧
        (r.isOk = true → i ∈ s.res.Created)) :
    ∀ i e, (⟨.get i, .error e⟩ : Event) ∈ (updateVisit rt srv original force x s).2.trace →
      IsNotFound (some e) = true →
      ∃ r, NextAfter (updateVisit rt srv original force x s).2.trace
          ⟨.get i, .error e⟩ ⟨.create i, r⟩ ∧
        (r.isOk = true → i ∈ (updateVisit rt srv original force x s).2.res.Created) := by
  have hold : ∀ evs c i e, (⟨.get i, .error e⟩ : Event) ∈ s.trace →
      IsNotFound (some e) = true →
      ∃ r, NextAfter (s.trace ++ evs) ⟨.get i, .error e⟩ ⟨.create i, r⟩ ∧
        (r.isOk = true → i ∈ s.res.Created ++ c) := by
    intro evs c i e hev hn
    obtain ⟨r, hr1, hr2⟩ := hs i e hev hn
    exact ⟨r, NextAfter_append _ _ _ _ hr1, fun h => List.mem_append_left _ (hr2 h)⟩
  intro i e hev hn
  rcases updateVisit_cases rt srv original force x s with
    ⟨e1, _, hn1, h⟩ | ⟨e1, e2, _, _, _, h⟩ | ⟨e1, o, _, _, _, h⟩ | ⟨o, _, hno, h⟩ |
    ⟨o, oi, _, hoi, h⟩
  · rw [h] at hev ⊢
    simp only [List.mem_append, List.mem_singleton, Event.mk.injEq, Call.get.injEq,
      Answer.error.injEq] at hev
    rcases hev with hev | ⟨rfl, rfl⟩
    · simpa using hold _ [] i e hev hn
    · rw [hn1] at hn; simp at hn
  · rw [h] at hev ⊢
    simp only [List.mem_append, List.mem_cons, List.mem_singleton, Event.mk.injEq,
      Call.get.injEq, Answer.error.injEq, reduceCtorEq, false_and, List.not_mem_nil,
      or_false] at hev
    rcases hev with hev | ⟨rfl, rfl⟩
    · simpa using hold _ [] i e hev hn
    · exact ⟨.error e2, ⟨s.trace, [], by simp⟩, by simp [Answer.isOk]⟩
  · rw [h] at hev ⊢
    simp only [List.mem_append, List.mem_cons, List.mem_singleton, Event.mk.injEq,
      Call.get.injEq, Answer.error.injEq, reduceCtorEq, false_and, List.not_mem_nil,
      or_false] at hev
    rcases hev with hev | ⟨rfl, rfl⟩
    · exact hold _ [x] i e hev hn
    · exact ⟨.ok o, ⟨s.trace, [], by simp⟩, by simp⟩
  · rw [h] at hev ⊢
    simp only [List.mem_append, List.mem_singleton, Event.mk.injEq, reduceCtorEq,
      and_false, or_false] at hev
    simpa using hold _ [] i e hev hn
  · rw [h] at hev ⊢
    obtain ⟨evs, h1, h2⟩ := updateResource_events rt srv x
      (if force then none else some oi.Object)
      (x.Mapping.Kind != "CustomResourceDefinition") (s.trace ++ [⟨.get x, .ok o⟩])
    simp only [h1] at hev ⊢
    simp only [List.mem_append, List.mem_singleton, Event.mk.injEq, reduceCtorEq,
      and_false, or_false] at hev
    rcases hev with hev | hev
    · rw [List.append_assoc]
      simpa using hold _ [] i e hev hn
    · rcases h2 _ hev with h | ⟨pt, p, h, _⟩ | ⟨h, _⟩ | ⟨h, _⟩ <;> simp at h

/-- While the visit goes on, every handle whose read answered NotFound is in `Created`. -/
theorem updateVisit_absent_created (rt : Runtime) (srv : Server) (original : ResourceList)
    (force : Bool) (x : Info) (s : UpdateState)
    (hs : ∀ i e, (⟨.get i, .error e⟩ : Event) ∈ s.trace → i ∈ s.res.Created)
    (hok : (updateVisit rt srv original force x s).1 = none) :
    ∀ i e, (⟨.get i, .error e⟩ : Event) ∈ (updateVisit rt srv original force x s).2.trace →
      i ∈ (updateVisit rt srv original force x s).2.res.Created := by
  intro i e hev
  rcases updateVisit_cases rt srv original force x s with
    ⟨e1, _, hn1, h⟩ | ⟨e1, e2, _, _, _, h⟩ | ⟨e1, o, _, _, _, h⟩ | ⟨o, _, hno, h⟩ |
    ⟨o, oi, _, hoi, h⟩
  · rw [h] at hok; simp at hok
  · rw [h] at hok; simp at hok
  · rw [h] at hev ⊢
    simp only [List.mem_append, List.mem_cons, List.mem_singleton, Event.mk.injEq,
      Call.get.injEq, Answer.error.injEq, reduceCtorEq, false_and, List.not_mem_nil,
      or_false] at hev
    rcases hev with hev | ⟨rfl, rfl⟩
    · exact List.mem_append_left _ (hs i e hev)
    · simp
  · rw [h] at hok; simp at hok
  · rw [h] at hev ⊢
    obtain ⟨evs, h1, h2⟩ := updateResource_events rt srv x
      (if force then none else some oi.Object)
      (x.Mapping.Kind != "CustomResourceDefinition") (s.trace ++ [⟨.get x, .ok o⟩])
    simp only [h1] at hev ⊢
    simp only [List.mem_append, List.mem_singleton, Event.mk.injEq, reduceCtorEq,
      and_false, or_false] at hev
    rcases hev with hev | hev
    · exact hs i e hev
    · rcases h2 _ hev with h | ⟨pt, p, h, _⟩ | ⟨h, _⟩ | ⟨h, _⟩ <;> simp at h

/-- With distinct identities in `target`, a resource whose read answered NotFound is never
patched nor recorded under `Updated`. -/
theorem Update_absent_not_patched (rt : Runtime) (srv : Server)
    (original target : ResourceList) (force : Bool)
    (k : String × String × String × String × String)
    (hid : (target.map Info.identity).Nodup) :
    (∃ i e, i.identity = k ∧ (⟨.get i, .error e⟩ : Event) ∈
        (target.Visit (updateVisit rt srv original force) UpdateState.init).2.trace) →
      (∀ ev ∈ (target.Visit (updateVisit rt srv original force) UpdateState.init).2.trace,
        ev.call.info.identity = k → ∀ j pt p, ev.call ≠ .patch j pt p) ∧
      (∀ u ∈ (target.Visit (updateVisit rt srv original force) UpdateState.init).2.res.Updated,
        u.identity ≠ k) := by
  apply Visit_keyed (updateVisit rt srv original force) k
    (fun s => (∀ ev ∈ s.trace, ev.call.info.identity ≠ k) ∧
      (∀ u ∈ s.res.Updated, u.identity ≠ k))
    (fun s => (∃ i e, i.identity = k ∧ (⟨.get i, .error e⟩ : Event) ∈ s.trace) →
      (∀ ev ∈ s.trace, ev.call.info.identity = k → ∀ j pt p, ev.call ≠ .patch j pt p) ∧
      (∀ u ∈ s.res.Updated, u.identity ≠ k))
    target UpdateState.init hid
  · simp [UpdateState.init, Result.empty]
  · intro s ⟨h1, h2⟩ _
    exact ⟨fun ev hev hk => absurd hk (h1 ev hev), h2⟩
  · intro x s hx ⟨hA1, hA2⟩ hex
    rcases updateVisit_cases rt srv original force x s with
      ⟨e1, _, hn1, h⟩ | ⟨e1, e2, _, _, _, h⟩ | ⟨e1, o, _, _, _, h⟩ | ⟨o, _, hno, h⟩ |
      ⟨o, oi, _, hoi, h⟩
    · rw [h]
      refine ⟨?_, hA2⟩
      intro ev hev hk
      simp only [List.mem_append, List.mem_singleton] at hev
      rcases hev with hev | rfl
      · exact absurd hk (hA1 ev hev)
      · simp
    · rw [h]
      refine ⟨?_, hA2⟩
      intro ev hev hk
      simp only [List.mem_append, List.mem_cons, List.mem_singleton, List.not_mem_nil,
        or_false] at hev
      rcases hev with hev | rfl | rfl
      · exact absurd hk (hA1 ev hev)
      · simp
      · simp
    · rw [h]
      refine ⟨?_, hA2⟩
      intro ev hev hk
      simp only [List.mem_append, List.mem_cons, List.mem_singleton, List.not_mem_nil,
        or_false] at hev
      rcases hev with hev | rfl | rfl
      · exact absurd hk (hA1 ev hev)
      · simp
      · simp
    · rw [h]
      refine ⟨?_, hA2⟩
      intro ev hev hk
      simp only [List.mem_append, List.mem_singleton] at hev
      rcases hev with hev | rfl
      · exact absurd hk (hA1 ev hev)
      · simp
    · exfalso
      rw [h] at hex
      obtain ⟨i, e, hik, hev⟩ := hex
      obtain ⟨evs, h1, h2⟩ := updateResource_events rt srv x
        (if force then none else some oi.Object)
        (x.Mapping.Kind != "CustomResourceDefinition") (s.trace ++ [⟨.get x, .ok o⟩])
      simp only [h1] at hev
      simp only [List.mem_append, List.mem_singleton, Event.mk.injEq, reduceCtorEq,
        and_false, or_false] at hev
      rcases hev with hev | hev
      · exact hA1 _ hev hik
      · rcases h2 _ hev with h | ⟨pt, p, h, _⟩ | ⟨h, _⟩ | ⟨h, _⟩ <;> simp at h
  · intro x s hx ⟨hA1, hA2⟩
    obtain ⟨evs, c, u, errs, h1, h2, -, -, h5, h6, -⟩ :=
      updateVisit_frame rt srv original force x s
    constructor
    · intro ev hev
      rw [h1] at hev
      rcases List.mem_append.mp hev with hev | hev
      · exact hA1 ev hev
      · rw [h2 ev hev]; exact hx
    · intro y hy
      rw [h5] at hy
      rcases List.mem_append.mp hy with hy | hy
      · exact hA2 y hy
      · rw [h6 y hy]; exact hx
  · intro x s hx hB hex
    obtain ⟨evs, c, u, errs, h1, h2, -, -, h5, h6, -⟩ :=
      updateVisit_frame rt srv original force x s
    have hold : ∃ i e, i.identity = k ∧ (⟨.get i, .error e⟩ : Event) ∈ s.trace := by
      obtain ⟨i, e, hik, hev⟩ := hex
      rw [h1] at hev
      rcases List.mem_append.mp hev with hev | hev
      · exact ⟨i, e, hik, hev⟩
      · have := h2 _ hev
        simp only [Call.info] at this
        rw [this] at hik
        exact absurd hik hx
    obtain ⟨hB1, hB2⟩ := hB hold
    constructor
    · intro ev hev hk
      rw [h1] at hev
      rcases List.mem_append.mp hev with hev | hev
      · exact hB1 ev hev hk
      · rw [h2 ev hev] at hk; exact absurd hk hx
    · intro y hy
      rw [h5] at hy
      rcases List.mem_append.mp hy with hy | hy
      · exact hB2 y hy
      · rw [h6 y hy]; exact hx

/-- C7: with distinct identities in `target`, for every target resource whose read answers
NotFound, the next request of `Update` is a create of that resource, and when the create
succeeds the resource is appended to `Created`; no patch is ever sent for that resource
and it is never recorded under `Updated`; when `Update` returns a result, the resource is
in its `Created` list and not in its `Updated` list. Scenario: target = [c] with c absent
on the server gives `Created` = [c], `Updated` empty, after one read and one create. -/
theorem Update_creates_absent (rt : Runtime) (srv : Server)
    (original target : ResourceList) (force : Bool) (info : Info) (e : Error)
    (hid : (target.map Info.identity).Nodup)
    (hget : ⟨.get info, .error e⟩ ∈ (Update rt srv original target force).trace)
    (hnf : IsNotFound (some e) = true) :
    (∃ r, NextAfter (Update rt srv original target force).trace
        ⟨.get info, .error e⟩ ⟨.create info, r⟩ ∧
      (r.isOk = true →
        info ∈ (target.Visit (updateVisit rt srv original force) UpdateState.init).2.res.Created)) ∧
    (∀ ev ∈ (Update rt srv original target force).trace,
      ev.call.info.identity = info.identity → ∀ j pt p, ev.call ≠ .patch j pt p) ∧
    (∀ u ∈ (target.Visit (updateVisit rt srv original force) UpdateState.init).2.res.Updated,
      u.identity ≠ info.identity) ∧
    (∀ res, (Update rt srv original target force).result = some res →
      info ∈ res.Created ∧ ∀ u ∈ res.Updated, u.identity ≠ info.identity) ∧
    Update rtPlain srvGone [] [resC] false =
      ⟨some ⟨[resC], [], []⟩, none,
        [⟨.get resC, .error (.status .NotFound "not found")⟩,
         ⟨.create resC, .ok resC.Object⟩]⟩ := by
  obtain ⟨dels, ht, hd⟩ := Update_trace_split rt srv original target force
  have hv : (⟨.get info, .error e⟩ : Event) ∈
      (target.Visit (updateVisit rt srv original force) UpdateState.init).2.trace := by
    rw [ht] at hget
    rcases List.mem_append.mp hget with hg | hg
    · exact hg
    · obtain ⟨j, _, hj⟩ := hd _ hg
      simp at hj
  have hQ := Visit_invariant (updateVisit rt srv original force)
    (fun s => ∀ i e, (⟨.get i, .error e⟩ : Event) ∈ s.trace → IsNotFound (some e) = true →
      ∃ r, NextAfter s.trace ⟨.get i, .error e⟩ ⟨.create i, r⟩ ∧
        (r.isOk = true → i ∈ s.res.Created))
    target UpdateState.init (by simp [UpdateState.init])
    (fun x _ s hs => updateVisit_creates_absent rt srv original force x s hs)
  obtain ⟨hB1, hB2⟩ := Update_absent_not_patched rt srv original target force info.identity hid
    ⟨info, e, rfl, hv⟩
  refine ⟨?_, ?_, hB2, ?_, by decide⟩
  · obtain ⟨r, hr1, hr2⟩ := hQ info e hv hnf
    rw [ht]
    exact ⟨r, NextAfter_append _ _ _ _ hr1, hr2⟩
  · intro ev hev hk j pt p
    rw [ht] at hev
    rcases List.mem_append.mp hev with hg | hg
    · exact hB1 ev hg hk j pt p
    · obtain ⟨i, _, hi⟩ := hd _ hg
      rw [hi]; simp
  · intro res hres
    have hP := Visit_invariant_ok (updateVisit rt srv original force)
      (fun s => ∀ i e, (⟨.get i, .error e⟩ : Event) ∈ s.trace → i ∈ s.res.Created)
      target UpdateState.init (by simp [UpdateState.init])
      (fun x _ s hs hok => updateVisit_absent_created rt srv original force x s hs hok)
    rw [Update_eq] at hres
    rcases hvis : target.Visit (updateVisit rt srv original force) UpdateState.init with ⟨e1, st⟩
    rw [hvis] at hres hP hv hB2
    cases e1 with
    | some e1 => simp at hres
    | none =>
      simp only at hres hP hv hB2
      split at hres
      · simp at hres
      · simp only [Option.some.injEq] at hres
        subst hres
        exact ⟨hP trivial info e hv, hB2⟩

/-- C7 at target = [a, c] on a server where nothing exists. -/
theorem Update_creates_absent_witness :
    ∃ r, NextAfter (Update rtPlain srvGone [resA0] [resA1, resC] false).trace
        ⟨.get resC, .error (.status .NotFound "not found")⟩ ⟨.create resC, r⟩ ∧
      (r.isOk = true → resC ∈ (ResourceList.Visit (updateVisit rtPlain srvGone [resA0] false)
        [resA1, resC] UpdateState.init).2.res.Created) :=
  (Update_creates_absent rtPlain srvGone [resA0] [resA1, resC] false resC
    (.status .NotFound "not found") (by decide) (by decide) (by decide)).1

theorem InRow_append (tr evs : List Event) (a b c : Event) (h : InRow tr a b c) :
    InRow (tr ++ evs) a b c := by
  obtain ⟨pre, post, h⟩ := h
  exact ⟨pre, post ++ evs, by simp [h]⟩

/-- For a kind other than CustomResourceDefinition, a rejected patch is followed at once
by a delete of the same handle, and that delete, when it succeeded, at once by a create of
the handle. -/
theorem updateVisit_recreates (rt : Runtime) (srv : Server) (original : ResourceList)
    (force : Bool) (x : Info) (s : UpdateState)
    (hs : ∀ i pt p e, (⟨.patch i pt p, .error e⟩ : Event) ∈ s.trace →
      i.Mapping.Kind ≠ "CustomResourceDefinition" →
      ∃ r, NextAfter s.trace ⟨.patch i pt p, .error e⟩ ⟨.delete i, r⟩ ∧
        (r.isOk = true → ∃ r2, InRow s.trace
          ⟨.patch i pt p, .error e⟩ ⟨.delete i, r⟩ ⟨.create i, r2⟩)) :
    ∀ i pt p e, (⟨.patch i pt p, .error e⟩ : Event) ∈
        (updateVisit rt srv original force x s).2.trace →
      i.Mapping.Kind ≠ "CustomResourceDefinition" →
      ∃ r, NextAfter (updateVisit rt srv original force x s).2.trace
          ⟨.patch i pt p, .error e⟩ ⟨.delete i, r⟩ ∧
        (r.isOk = true → ∃ r2, InRow (updateVisit rt srv original force x s).2.trace
          ⟨.patch i pt p, .error e⟩ ⟨.delete i, r⟩ ⟨.create i, r2⟩) := by
  have hold : ∀ evs i pt p e, (⟨.patch i pt p, .error e⟩ : Event) ∈ s.trace →
      i.Mapping.Kind ≠ "CustomResourceDefinition" →
      ∃ r, NextAfter (s.trace ++ evs) ⟨.patch i pt p, .error e⟩ ⟨.delete i, r⟩ ∧
        (r.isOk = true → ∃ r2, InRow (s.trace ++ evs)
          ⟨.patch i pt p, .error e⟩ ⟨.delete i, r⟩ ⟨.create i, r2⟩) := by
    intro evs i pt p e hev hk
    obtain ⟨r, hr1, hr2⟩ := hs i pt p e hev hk
    refine ⟨r, NextAfter_append _ _ _ _ hr1, fun h => ?_⟩
    obtain ⟨r2, h2⟩ := hr2 h
    exact ⟨r2, InRow_append _ _ _ _ _ h2⟩
  intro i pt p e hev hk
  rcases updateVisit_cases rt srv original force x s with
    ⟨e1, _, hn1, h⟩ | ⟨e1, e2, _, _, _, h⟩ | ⟨e1, o, _, _, _, h⟩ | ⟨o, _, hno, h⟩ |
    ⟨o, oi, _, hoi, h⟩
  · rw [h] at hev ⊢
    simp only [List.mem_append, List.mem_singleton, Event.mk.injEq, reduceCtorEq,
      false_and, or_false] at hev
    exact hold _ i pt p e hev hk
  · rw [h] at hev ⊢
    simp only [List.mem_append, List.mem_cons, List.mem_singleton, Event.mk.injEq,
      reduceCtorEq, false_and, List.not_mem_nil, or_false] at hev
    exact hold _ i pt p e hev hk
  · rw [h] at hev ⊢
    simp only [List.mem_append, List.mem_cons, List.mem_singleton, Event.mk.injEq,
      reduceCtorEq, false_and, List.not_mem_nil, or_false] at hev
    exact hold _ i pt p e hev hk
  · rw [h] at hev ⊢
    simp only [List.mem_append, List.mem_singleton, Event.mk.injEq, reduceCtorEq,
      false_and, or_false] at hev
    exact hold _ i pt p e hev hk
  · rw [h] at hev ⊢
    simp only at hev ⊢
    rcases updateResource_cases rt srv x (if force then none else some oi.Object)
        (x.Mapping.Kind != "CustomResourceDefinition") (s.trace ++ [⟨.get x, .ok o⟩]) with
      ⟨p1, pt1, e1, hc, hu⟩ | ⟨pt1, e1, hc, _, hu⟩ | ⟨pt1, o2, hc, _, hu⟩ |
      ⟨p1, pt1, o2, hc, _, hu⟩ | ⟨p1, pt1, e1, hc, _, hf, hu⟩ |
      ⟨p1, pt1, e1, e2, hc, _, hf, _, hu⟩ | ⟨p1, pt1, e1, o2, e3, hc, _, hf, _, _, hu⟩ |
      ⟨p1, pt1, e1, o2, o3, hc, _, hf, _, _, hu⟩
    · rw [hu] at hev ⊢
      simp only [List.mem_append, List.mem_singleton, Event.mk.injEq, reduceCtorEq,
        false_and, or_false] at hev
      exact hold _ i pt p e hev hk
    · rw [hu] at hev ⊢
      simp only [List.mem_append, List.mem_singleton, Event.mk.injEq, reduceCtorEq,
        false_and, or_false] at hev
      rw [List.append_assoc]
      exact hold _ i pt p e hev hk
    · rw [hu] at hev ⊢
      simp only [List.mem_append, List.mem_singleton, Event.mk.injEq, reduceCtorEq,
        false_and, or_false] at hev
      rw [List.append_assoc]
      exact hold _ i pt p e hev hk
    · rw [hu] at hev ⊢
      simp only [List.mem_append, List.mem_singleton, Event.mk.injEq, reduceCtorEq,
        false_and, and_false, or_false] at hev
      rw [List.append_assoc]
      exact hold _ i pt p e hev hk
    · rw [hu] at hev ⊢
      simp only [List.mem_append, List.mem_singleton, Event.mk.injEq, reduceCtorEq,
        false_and, or_false, Call.patch.injEq, Answer.error.injEq] at hev
      rcases hev with hev | ⟨⟨rfl, rfl, rfl⟩, rfl⟩
      · rw [List.append_assoc]
        exact hold _ i pt p e hev hk
      · simp only [bne_eq_false_iff_eq] at hf
        exact absurd hf hk
    · rw [hu] at hev ⊢
      simp only [List.mem_append, List.mem_cons, List.mem_singleton, Event.mk.injEq,
        reduceCtorEq, false_and, or_false, Call.patch.injEq, Answer.error.injEq,
        List.not_mem_nil] at hev
      rcases hev with hev | ⟨⟨rfl, rfl, rfl⟩, rfl⟩
      · rw [List.append_assoc]
        exact hold _ i pt p e hev hk
      · exact ⟨.error e2, ⟨s.trace ++ [⟨.get i, .ok o⟩], [], by simp⟩, by simp [Answer.isOk]⟩
    · rw [hu] at hev ⊢
      simp only [List.mem_append, List.mem_cons, List.mem_singleton, Event.mk.injEq,
        reduceCtorEq, false_and, or_false, Call.patch.injEq, Answer.error.injEq,
        List.not_mem_nil] at hev
      rcases hev with hev | ⟨⟨rfl, rfl, rfl⟩, rfl⟩
      · rw [List.append_assoc]
        exact hold _ i pt p e hev hk
      · exact ⟨.ok o2, ⟨s.trace ++ [⟨.get i, .ok o⟩], [⟨.create i, .error e3⟩], by simp⟩,
          fun _ => ⟨.error e3, ⟨s.trace ++ [⟨.get i, .ok o⟩], [], by simp⟩⟩⟩
    · rw [hu] at hev ⊢
      simp only [List.mem_append, List.mem_cons, List.mem_singleton, Event.mk.injEq,
        reduceCtorEq, false_and, or_false, Call.patch.injEq, Answer.error.injEq,
        List.not_mem_nil] at hev
      rcases hev with hev | ⟨⟨rfl, rfl, rfl⟩, rfl⟩
      · rw [List.append_assoc]
        exact hold _ i pt p e hev hk
      · exact ⟨.ok o2, ⟨s.trace ++ [⟨.get i, .ok o⟩], [⟨.create i, .ok o3⟩], by simp⟩,
          fun _ => ⟨.ok o3, ⟨s.trace ++ [⟨.get i, .ok o⟩], [], by simp⟩⟩⟩

/-- With distinct identities in `target`, a rejected patch of a CustomResourceDefinition is
recorded in `updateErrors`, and no delete and no create is sent for that resource. -/
theorem Update_crd_rejected (rt : Runtime) (srv : Server)
    (original target : ResourceList) (force : Bool)
    (k : String × String × String × String × String)
    (hk : k.1 = "CustomResourceDefinition")
    (hid : (target.map Info.identity).Nodup) :
    (∃ i pt p e, i.identity = k ∧ (⟨.patch i pt p, .error e⟩ : Event) ∈
        (target.Visit (updateVisit rt srv original force) UpdateState.init).2.trace) →
      (target.Visit (updateVisit rt srv original force) UpdateState.init).2.updateErrors ≠ [] ∧
      (∀ ev ∈ (target.Visit (updateVisit rt srv original force) UpdateState.init).2.trace,
        ev.call.info.identity = k → ∀ j, ev.call ≠ .delete j ∧ ev.call ≠ .create j) := by
  apply Visit_keyed (updateVisit rt srv original force) k
    (fun s => ∀ ev ∈ s.trace, ev.call.info.identity ≠ k)
    (fun s => (∃ i pt p e, i.identity = k ∧ (⟨.patch i pt p, .error e⟩ : Event) ∈ s.trace) →
      s.updateErrors ≠ [] ∧
      (∀ ev ∈ s.trace, ev.call.info.identity = k →
        ∀ j, ev.call ≠ .delete j ∧ ev.call ≠ .create j))
    target UpdateState.init hid
  · simp [UpdateState.init]
  · intro s hA ⟨i, pt, p, e, hik, hev⟩
    exact absurd hik (hA _ hev)
  · intro x s hx hA ⟨i, pt, p, e, hik, hev⟩
    have hkind : (x.Mapping.Kind != "CustomResourceDefinition") = false := by
      have : x.identity.1 = "CustomResourceDefinition" := by rw [hx]; exact hk
      simp only [Info.identity] at this
      simp [this]
    rcases updateVisit_cases rt srv original force x s with
      ⟨e1, _, hn1, h⟩ | ⟨e1, e2, _, _, _, h⟩ | ⟨e1, o, _, _, _, h⟩ | ⟨o, _, hno, h⟩ |
      ⟨o, oi, _, hoi, h⟩
    · exfalso
      rw [h] at hev
      simp only [List.mem_append, List.mem_singleton, Event.mk.injEq, reduceCtorEq,
        false_and, or_false] at hev
      exact hA _ hev hik
    · exfalso
      rw [h] at hev
      simp only [List.mem_append, List.mem_cons, List.mem_singleton, Event.mk.injEq,
        reduceCtorEq, false_and, List.not_mem_nil, or_false] at hev
      exact hA _ hev hik
    · exfalso
      rw [h] at hev
      simp only [List.mem_append, List.mem_cons, List.mem_singleton, Event.mk.injEq,
        reduceCtorEq, false_and, List.not_mem_nil, or_false] at hev
      exact hA _ hev hik
    · exfalso
      rw [h] at hev
      simp only [List.mem_append, List.mem_singleton, Event.mk.injEq, reduceCtorEq,
        false_and, or_false] at hev
      exact hA _ hev hik
    · rw [h] at hev ⊢
      simp only at hev ⊢
      rw [hkind] at hev ⊢
      rcases updateResource_cases rt srv x (if force then none else some oi.Object)
          false (s.trace ++ [⟨.get x, .ok o⟩]) with
        ⟨p1, pt1, e1, hc, hu⟩ | ⟨pt1, e1, hc, _, hu⟩ | ⟨pt1, o2, hc, _, hu⟩ |
        ⟨p1, pt1, o2, hc, _, hu⟩ | ⟨p1, pt1, e1, hc, _, hf, hu⟩ |
        ⟨p1, pt1, e1, e2, hc, _, hf, _, hu⟩ | ⟨p1, pt1, e1, o2, e3, hc, _, hf, _, _, hu⟩ |
        ⟨p1, pt1, e1, o2, o3, hc, _, hf, _, _, hu⟩
      · exfalso
        rw [hu] at hev
        simp only [List.mem_append, List.mem_singleton, Event.mk.injEq, reduceCtorEq,
          false_and, or_false] at hev
        exact hA _ hev hik
      · exfalso
        rw [hu] at hev
        simp only [List.mem_append, List.mem_singleton, Event.mk.injEq, reduceCtorEq,
          false_and, or_false] at hev
        exact hA _ hev hik
      · exfalso
        rw [hu] at hev
        simp only [List.mem_append, List.mem_singleton, Event.mk.injEq, reduceCtorEq,
          false_and, or_false] at hev
        exact hA _ hev hik
      · exfalso
        rw [hu] at hev
        simp only [List.mem_append, List.mem_singleton, Event.mk.injEq, reduceCtorEq,
          false_and, and_false, or_false] at hev
        exact hA _ hev hik
      · rw [hu]
        refine ⟨by simp, ?_⟩
        intro ev hev2 hk2 j
        simp only [List.mem_append, List.mem_singleton] at hev2
        rcases hev2 with (hev2 | rfl) | rfl
        · exact absurd hk2 (hA _ hev2)
        · simp
        · simp
      · simp at hf
      · simp at hf
      · simp at hf
  · intro x s hx hA ev hev
    obtain ⟨evs, c, u, errs, h1, h2, -⟩ := updateVisit_frame rt srv original force x s
    rw [h1] at hev
    rcases List.mem_append.mp hev with hev | hev
    · exact hA ev hev
    · rw [h2 ev hev]; exact hx
  · intro x s hx hB hex
    obtain ⟨evs, c, u, errs, h1, h2, -, -, -, -, -, h8⟩ :=
      updateVisit_frame rt srv original force x s
    have hold : ∃ i pt p e, i.identity = k ∧ (⟨.patch i pt p, .error e⟩ : Event) ∈ s.trace := by
      obtain ⟨i, pt, p, e, hik, hev⟩ := hex
      rw [h1] at hev
      rcases List.mem_append.mp hev with hev | hev
      · exact ⟨i, pt, p, e, hik, hev⟩
      · have := h2 _ hev
        simp only [Call.info] at this
        rw [this] at hik
        exact absurd hik hx
    obtain ⟨hB1, hB2⟩ := hB hold
    constructor
    · rw [h8]
      simp [hB1]
    · intro ev hev hk2
      rw [h1] at hev
      rcases List.mem_append.mp hev with hev | hev
      · exact hB2 ev hev hk2
      · rw [h2 ev hev] at hk2; exact absurd hk2 hx

/-- C1 (as stated, refuted): with original = [a (v0)], target = [a (v1)], a a Deployment
that exists on the server, force = false and a server that rejects the patch, `Update`
sends a delete and then a create of a right after the rejected patch, and returns a result
and no error. -/
theorem Update_rejected_patch_counterexample :
    ResourceList.Get [resA0] resA1 = some resA0 ∧
    Update rtPlain srvRejectPatch [resA0] [resA1] false =
      ⟨some ⟨[], [resA1], []⟩, none,
        [⟨.get resA1, .ok (liveOf resA1)⟩,
         ⟨.patch resA1 .StrategicMergePatchType "a-v0 ~> a-v1",
           .error (.status .Conflict "conflict")⟩,
         ⟨.delete resA1, .ok (liveOf resA1)⟩,
         ⟨.create resA1, .ok (liveOf resA1)⟩]⟩ := by
  decide

/-- C1 (amended): with distinct identities in `target` and force = false, when the server
rejects the patch of a target resource: if the kind of the resource is
CustomResourceDefinition, `Update` sends no delete and no create for that resource and
returns an error and no result; for every other kind `updateResource` is called with its
own `force` set, so the request right after the rejected patch is a delete of that resource,
and when that delete succeeds the request right after it is a create of the resource: the
three exchanges stand in a row in the trace. -/
theorem Update_rejected_patch (rt : Runtime) (srv : Server)
    (original target : ResourceList) (info : Info) (pt : PatchType) (p : String) (e : Error)
    (hid : (target.map Info.identity).Nodup)
    (hrej : ⟨.patch info pt p, .error e⟩ ∈ (Update rt srv original target false).trace) :
    (info.Mapping.Kind = "CustomResourceDefinition" →
      (Update rt srv original target false).result = none ∧
      (Update rt srv original target false).err ≠ none ∧
      (∀ ev ∈ (Update rt srv original target false).trace,
        ev.call.info.identity = info.identity →
          ∀ j, ev.call ≠ .delete j ∧ ev.call ≠ .create j)) ∧
    (info.Mapping.Kind ≠ "CustomResourceDefinition" →
      ∃ r, NextAfter (Update rt srv original target false).trace
          ⟨.patch info pt p, .error e⟩ ⟨.delete info, r⟩ ∧
        (r.isOk = true →
          ∃ r2, InRow (Update rt srv original target false).trace
            ⟨.patch info pt p, .error e⟩ ⟨.delete info, r⟩ ⟨.create info, r2⟩)) := by
  obtain ⟨dels, ht, hd⟩ := Update_trace_split rt srv original target false
  have hv : (⟨.patch info pt p, .error e⟩ : Event) ∈
      (target.Visit (updateVisit rt srv original false) UpdateState.init).2.trace := by
    rw [ht] at hrej
    rcases List.mem_append.mp hrej with hg | hg
    · exact hg
    · obtain ⟨j, _, hj⟩ := hd _ hg
      simp at hj
  constructor
  · intro hkind
    obtain ⟨hE, hN⟩ := Update_crd_rejected rt srv original target false info.identity
      (by simpa [Info.identity] using hkind) hid ⟨info, pt, p, e, rfl, hv⟩
    rw [Update_eq]
    rcases hvis : target.Visit (updateVisit rt srv original false) UpdateState.init with ⟨e1, st⟩
    rw [hvis] at hE hN
    cases e1 with
    | some e1 => exact ⟨rfl, by simp, hN⟩
    | none =>
      simp only at hE hN ⊢
      rw [if_pos hE]
      exact ⟨rfl, by simp, hN⟩
  · intro hkind
    have hQ := Visit_invariant (updateVisit rt srv original false)
      (fun s => ∀ i pt p e, (⟨.patch i pt p, .error e⟩ : Event) ∈ s.trace →
        i.Mapping.Kind ≠ "CustomResourceDefinition" →
        ∃ r, NextAfter s.trace ⟨.patch i pt p, .error e⟩ ⟨.delete i, r⟩ ∧
          (r.isOk = true → ∃ r2, InRow s.trace
            ⟨.patch i pt p, .error e⟩ ⟨.delete i, r⟩ ⟨.create i, r2⟩))
      target UpdateState.init (by simp [UpdateState.init])
      (fun x _ s hs => updateVisit_recreates rt srv original false x s hs)
    obtain ⟨r, hr1, hr2⟩ := hQ info pt p e hv hkind
    rw [ht]
    refine ⟨r, NextAfter_append _ _ _ _ hr1, fun h => ?_⟩
    obtain ⟨r2, h2⟩ := hr2 h
    exact ⟨r2, InRow_append _ _ _ _ _ h2⟩

/-- The amended C1 at a CustomResourceDefinition and at a Deployment whose patch is rejected. -/
theorem Update_rejected_patch_witness :
    ((Update rtPlain srvRejectPatch [crdX0] [crdX1] false).result = none ∧
      (Update rtPlain srvRejectPatch [crdX0] [crdX1] false).err ≠ none) ∧
    (∃ r, NextAfter (Update rtPlain srvRejectPatch [resA0] [resA1] false).trace
        ⟨.patch resA1 .StrategicMergePatchType "a-v0 ~> a-v1",
          .error (.status .Conflict "conflict")⟩ ⟨.delete resA1, r⟩ ∧
      (r.isOk = true →
        ∃ r2, InRow (Update rtPlain srvRejectPatch [resA0] [resA1] false).trace
          ⟨.patch resA1 .StrategicMergePatchType "a-v0 ~> a-v1",
            .error (.status .Conflict "conflict")⟩ ⟨.delete resA1, r⟩ ⟨.create resA1, r2⟩)) :=
  ⟨⟨((Update_rejected_patch rtPlain srvRejectPatch [crdX0] [crdX1] crdX1 .MergePatchType
        "x-v0 => x-v1" (.status .Conflict "conflict") (by decide) (by decide)).1
        (by decide)).1,
    ((Update_rejected_patch rtPlain srvRejectPatch [crdX0] [crdX1] crdX1 .MergePatchType
        "x-v0 => x-v1" (.status .Conflict "conflict") (by decide) (by decide)).1
        (by decide)).2.1⟩,
   (Update_rejected_patch rtPlain srvRejectPatch [resA0] [resA1] resA1
        .StrategicMergePatchType "a-v0 ~> a-v1" (.status .Conflict "conflict")
        (by decide) (by decide)).2 (by decide)⟩

/-! ## `createPatch`: claims C11, C12 -/

/-- C11: when the target object and the current object marshal to the same bytes,
`createPatch` returns no patch (nil) and no error, and `updateResource`, whatever its
`force`, sends exactly one request, the read that refreshes the handle: no patch, no
delete, no create; it returns nil when that read succeeds and the wrapped error of the read
otherwise. -/
theorem createPatch_identical (rt : Runtime) (srv : Server) (target : Info)
    (current : Option RuntimeObject) (data : String) (force : Bool) (tr : List Event)
    (hcur : rt.marshal current = .ok data)
    (htgt : rt.marshal (some target.Object) = .ok data) :
    createPatch rt target current = (none, .StrategicMergePatchType, none) ∧
    (updateResource rt srv target current force tr).2 =
      tr ++ [⟨.refresh target, srv tr (.refresh target)⟩] ∧
    (updateResource rt srv target current force tr).1 =
      (match srv tr (.refresh target) with
       | .ok _ => none
       | .error e => some (.wrap e "error trying to refresh resource information")) := by
  have hcp : createPatch rt target current = (none, .StrategicMergePatchType, none) := by
    simp [createPatch, hcur, htgt]
  refine ⟨hcp, ?_, ?_⟩
  · simp only [updateResource, hcp, request]
    cases srv tr (.refresh target) <;> rfl
  · simp only [updateResource, hcp, request]
    cases srv tr (.refresh target) <;> rfl

/-- C11 at the Deployment a compared with its own object. -/
theorem createPatch_identical_witness :
    createPatch rtPlain resA1 (some resA1.Object) = (none, .StrategicMergePatchType, none) ∧
    (updateResource rtPlain srvAccept resA1 (some resA1.Object) true []).2 =
      [⟨.refresh resA1, .ok (liveOf resA1)⟩] :=
  ⟨(createPatch_identical rtPlain srvAccept resA1 (some resA1.Object) "a-v1" true []
      rfl rfl).1,
   (createPatch_identical rtPlain srvAccept resA1 (some resA1.Object) "a-v1" true []
      rfl rfl).2.1⟩

/-- C12 (as stated, refuted): for a Deployment whose serialization differs from the current
one and whose conversion fails with an error that is not a "not registered" error, the
object `asVersioned` returns being neither unstructured nor a CustomResourceDefinition,
`createPatch` does not make a generic JSON merge patch: it returns no patch and the error
"failed to get versionedObject". -/
theorem createPatch_format_counterexample :
    rtNoConversion.marshal (some resA0.Object) = .ok "a-v0" ∧
    rtNoConversion.marshal (some resA1.Object) = .ok "a-v1" ∧
    asVersioned rtNoConversion resA1 = (resA1.Object, some (.new "conversion failed")) ∧
    createPatch rtNoConversion resA1 (some resA0.Object) =
      (none, .StrategicMergePatchType,
        some (.new "failed to get versionedObject: conversion failed")) :=
  ⟨rfl, rfl, by decide, by decide⟩

/-- C12 (amended): for every target and current object whose serializations differ,
`createPatch` makes a strategic merge patch (`CreateTwoWayMergePatch`, tag
`StrategicMergePatchType`) when `asVersioned` converts the target without error to an object
that is neither unstructured nor a CustomResourceDefinition; it makes a generic JSON merge
patch (`CreateMergePatch`, tag `MergePatchType`) when the conversion error is a "not
registered" error or the object `asVersioned` returns is unstructured or a
CustomResourceDefinition; in the remaining case, a conversion that fails with another error
on an object that is neither, it makes no patch and returns the error "failed to get
versionedObject". -/
theorem createPatch_format (rt : Runtime) (target : Info) (current : Option RuntimeObject)
    (oldData newData : String)
    (hcur : rt.marshal current = .ok oldData)
    (htgt : rt.marshal (some target.Object) = .ok newData)
    (hne : oldData ≠ newData) :
    ((asVersioned rt target).2 = none →
      (asVersioned rt target).1.goType ≠ .Unstructured →
      (asVersioned rt target).1.goType ≠ .CustomResourceDefinition →
      createPatch rt target current =
        (match rt.createTwoWayMergePatch oldData newData (asVersioned rt target).1 with
         | .error e =>
           (none, .StrategicMergePatchType,
             some (.new ("failed to create two-way merge patch: " ++ errorString e)))
         | .ok patch => (some patch, .StrategicMergePatchType, none))) ∧
    (IsNotRegisteredError (asVersioned rt target).2 = true ∨
        (asVersioned rt target).1.goType = .Unstructured ∨
        (asVersioned rt target).1.goType = .CustomResourceDefinition →
      createPatch rt target current =
        (match rt.createMergePatch oldData newData with
         | .error e =>
           (none, .MergePatchType, some (.new ("failed to create merge patch: " ++ errorString e)))
         | .ok patch => (some patch, .MergePatchType, none))) ∧
    (∀ e, (asVersioned rt target).2 = some e →
      IsNotRegisteredError (some e) = false →
      (asVersioned rt target).1.goType ≠ .Unstructured →
      (asVersioned rt target).1.goType ≠ .CustomResourceDefinition →
      createPatch rt target current =
        (none, .StrategicMergePatchType,
          some (.new ("failed to get versionedObject: " ++ errorString e)))) := by
  rcases hv : asVersioned rt target with ⟨vo, err⟩
  refine ⟨?_, ?_, ?_⟩
  · intro h1 h2 h3
    simp only at h1 h2 h3
    subst h1
    simp only [createPatch, hcur, htgt, hne, if_false, hv, IsNotRegisteredError, h2, h3,
      decide_False, Bool.or_self, Bool.false_eq_true]
  · intro h
    simp only at h
    have hc : (IsNotRegisteredError err || decide (vo.goType = .Unstructured) ||
        decide (vo.goType = .CustomResourceDefinition)) = true := by
      rcases h with h | h | h <;> simp [h]
    simp only [createPatch, hcur, htgt, hne, if_false, hv, hc, if_true]
  · intro e h1 h2 h3 h4
    simp only at h1 h3 h4
    subst h1
    simp [createPatch, hcur, htgt, hne, hv, h2, h3, h4]

/-- The amended C12 at a Deployment, at a CustomResourceDefinition, and at a Deployment whose conversion fails. -/
theorem createPatch_format_witness :
    createPatch rtPlain resA1 (some resA0.Object) =
      (some "a-v0 ~> a-v1", .StrategicMergePatchType, none) ∧
    createPatch rtPlain crdX1 (some crdX0.Object) =
      (some "x-v0 => x-v1", .MergePatchType, none) ∧
    createPatch rtNoConversion resA1 (some resA0.Object) =
      (none, .StrategicMergePatchType,
        some (.new "failed to get versionedObject: conversion failed")) :=
  ⟨(createPatch_format rtPlain resA1 (some resA0.Object) "a-v0" "a-v1" rfl rfl
      (by decide)).1 (by decide) (by decide) (by decide),
   (createPatch_format rtPlain crdX1 (some crdX0.Object) "x-v0" "x-v1" rfl rfl
      (by decide)).2.1 (by decide),
   (createPatch_format rtNoConversion resA1 (some resA0.Object) "a-v0" "a-v1" rfl
      rfl (by decide)).2.2 (.new "conversion failed") (by decide) (by decide)
      (by decide) (by decide)⟩

/-! ## Readiness: claims C13, C14 -/

/-- The loop of `waitForJob` returns at the first deciding condition. -/
theorem waitForJobLoop_find (conds : List JobCondition) :
    waitForJobLoop conds =
      (conds.find? JobCondition.decisive).map (fun c =>
        if c.CondType = "Complete" then (true, none)
        else (true, some (.new ("job failed: " ++ c.Reason)))) := by
  induction conds with
  | nil => rfl
  | cons c rest ih =>
    by_cases h1 : c.CondType = "Complete" ∧ c.Status = "True"
    · simp [waitForJobLoop, JobCondition.decisive, JobComplete, h1.1, h1.2]
    · by_cases h2 : c.CondType = "Failed" ∧ c.Status = "True"
      · have hc : c.CondType ≠ "Complete" := by rw [h2.1]; decide
        simp [waitForJobLoop, JobCondition.decisive, JobComplete, JobFailed, h2.1, h2.2]
      · have hd : JobCondition.decisive c = false := by
          simp only [JobCondition.decisive, Bool.or_eq_false_iff, Bool.and_eq_false_imp,
            decide_eq_true_eq, decide_eq_false_iff_not]
          exact ⟨fun a b => h1 ⟨a, b⟩, fun a b => h2 ⟨a, b⟩⟩
        have e1 : (decide (c.CondType = JobComplete) && decide (c.Status = "True")) = false := by
          simp only [JobComplete, Bool.and_eq_false_imp, decide_eq_true_eq,
            decide_eq_false_iff_not]
          exact fun a b => h1 ⟨a, b⟩
        have e2 : (decide (c.CondType = JobFailed) && decide (c.Status = "True")) = false := by
          simp only [JobFailed, Bool.and_eq_false_imp, decide_eq_true_eq,
            decide_eq_false_iff_not]
          exact fun a b => h2 ⟨a, b⟩
        simp only [waitForJobLoop, e1, e2, Bool.false_eq_true, if_false, ih, List.find?, hd]

/-- C13: on a Job, `waitForJob` decides by the first status condition, in list order, that
is Complete=True or Failed=True: it returns done and no error when that condition is
Complete=True, done and the error "job failed: REASON" with the reason of that condition
when it is Failed=True, and not done and no error when there is no such condition. For the
kind Job the condition function of `watchUntilReady` returns the answer of `waitForJob` on
every Added or Modified event that delivers the Job, so that the wait ends without error,
ends with that error, or goes on with the rest of the stream. -/
theorem waitForJob_first_decisive (status : JobStatus) (name : String) :
    waitForJob (.Job status) name =
      (match status.Conditions.find? JobCondition.decisive with
       | none => (false, none)
       | some c =>
         if c.CondType = "Complete" then (true, none)
         else (true, some (.new ("job failed: " ++ c.Reason)))) ∧
    (∀ (convertWithMapper : WatchedObject → GroupVersionKind → WatchedObject) (info : Info)
        (e : WatchEvent),
      e.EType = .Added ∨ e.EType = .Modified →
      convertWithMapper e.Object info.Mapping = .Job status →
      readyCondition convertWithMapper info "Job" e = waitForJob (.Job status) info.Name) ∧
    (∀ (watchSingle : Info → Except Error WatchStream)
        (convertWithMapper : WatchedObject → GroupVersionKind → WatchedObject) (info : Info)
        (e : WatchEvent) (rest : List WatchEvent) (ending : StreamEnd),
      info.Mapping.Kind = "Job" →
      watchSingle info = .ok ⟨e :: rest, ending⟩ →
      e.EType = .Added ∨ e.EType = .Modified →
      convertWithMapper e.Object info.Mapping = .Job status →
      (watchUntilReady watchSingle convertWithMapper info).1 =
        (match waitForJob (.Job status) info.Name with
         | (_, some err) => some err
         | (true, none) => none
         | (false, none) =>
           UntilWithoutRetry (readyCondition convertWithMapper info "Job") ending rest)) := by
  have hrc : ∀ (convertWithMapper : WatchedObject → GroupVersionKind → WatchedObject)
      (info : Info) (e : WatchEvent), e.EType = .Added ∨ e.EType = .Modified →
      convertWithMapper e.Object info.Mapping = .Job status →
      readyCondition convertWithMapper info "Job" e = waitForJob (.Job status) info.Name := by
    intro cv info e he hcv
    rcases he with he | he <;> simp [readyCondition, he, hcv]
  refine ⟨?_, hrc, ?_⟩
  · simp only [waitForJob, waitForJobLoop_find]
    cases status.Conditions.find? JobCondition.decisive <;> rfl
  · intro ws cv info e rest ending hk hws he hcv
    have := hrc cv info e he hcv
    simp only [watchUntilReady, hk, true_or, if_true, hws, UntilWithoutRetry, this]

/-- C13 at a job whose first deciding condition is Failed=True, delivered by a Modified event. -/
theorem waitForJob_first_decisive_witness :
    waitForJob (.Job statusFailedFirst) "migrate" =
      (true, some (.new "job failed: BackoffLimitExceeded")) ∧
    (watchUntilReady (fun _ => .ok ⟨[⟨.Modified, .Job statusFailedFirst⟩], .Timeout⟩)
      (fun o _ => o) resJob).1 = some (.new "job failed: BackoffLimitExceeded") :=
  ⟨(waitForJob_first_decisive statusFailedFirst "migrate").1,
   (waitForJob_first_decisive statusFailedFirst "migrate").2.2
     (fun _ => .ok ⟨[⟨.Modified, .Job statusFailedFirst⟩], .Timeout⟩) (fun o _ => o) resJob
     ⟨.Modified, .Job statusFailedFirst⟩ [] .Timeout rfl rfl (Or.inr rfl) rfl⟩

/-- For a kind other than Job and Pod `watchUntilReady` returns nil without opening a watch. -/
theorem watchUntilReady_other_kind (watchSingle : Info → Except Error WatchStream)
    (convertWithMapper : WatchedObject → GroupVersionKind → WatchedObject) (info : Info)
    (hj : info.Mapping.Kind ≠ "Job") (hp : info.Mapping.Kind ≠ "Pod") :
    watchUntilReady watchSingle convertWithMapper info = (none, []) := by
  simp [watchUntilReady, hj, hp]

/-- C14: for the ConfigMap `settings`, `watchUntilReady` returns nil without opening a
watch, both when the watch would deliver an Error event first and when opening the watch
would fail; run on that stream, the condition function it never installs would end the wait
with the error "failed to deploy settings". -/
theorem watchUntilReady_ignores_stream :
    watchUntilReady (fun _ => .ok streamErrorFirst) (fun o _ => o) resConfigMap = (none, []) ∧
    watchUntilReady (fun _ => .error (.status .InternalError "watch failed")) (fun o _ => o)
      resConfigMap = (none, []) ∧
    UntilWithoutRetry (readyCondition (fun o _ => o) resConfigMap "ConfigMap")
      streamErrorFirst.ending streamErrorFirst.events =
        some (.new "failed to deploy settings") := by
  decide

end Kube

namespace Releaseutil

open Kube

/-! ## `manifestFile.sort`: claim C15 -/

/-- An entry that parses and has no hook annotation is appended to the generic manifests. -/
theorem sortEntry_without_hook (unmarshal : String → Except Error SimpleHead)
    (atoi : String → Option Int) (events : List (String × HookEvent)) (file : manifestFile)
    (m : String) (res : result) (entry : SimpleHead)
    (hparse : unmarshal m = .ok entry)
    (hnone : mapLookup entry.annotations HookAnnotation = none) :
    sortEntry unmarshal atoi events file m res =
      (none, { res with generic := res.generic ++ [⟨file.path, m, entry⟩] }) := by
  simp only [sortEntry, hparse, hnone]
  split <;> rfl

/-- An entry that parses and whose hook annotation lists a hook type that is not a key of
`events` leaves the result as it was: it is appended neither to the hooks nor to the
generic manifests. -/
theorem sortEntry_unknown_hook (unmarshal : String → Except Error SimpleHead)
    (atoi : String → Option Int) (events : List (String × HookEvent)) (file : manifestFile)
    (m : String) (res : result) (entry : SimpleHead) (hookTypes : String)
    (hparse : unmarshal m = .ok entry)
    (hsome : mapLookup entry.annotations HookAnnotation = some hookTypes)
    (hunknown : hookEvents events (splitComma hookTypes) [] = none) :
    sortEntry unmarshal atoi events file m res = (none, res) := by
  have hany : hasAnyAnnotation entry = true := by
    unfold hasAnyAnnotation
    unfold SimpleHead.annotations at hsome
    cases hmd : entry.Metadata with
    | none => rw [hmd] at hsome; simp [mapLookup] at hsome
    | some md =>
      rw [hmd] at hsome
      simp only at hsome ⊢
      cases ha : md.Annotations with
      | nil => rw [ha] at hsome; simp [mapLookup] at hsome
      | cons a as => simp
  simp [sortEntry, hparse, hany, hsome, hunknown]

/-- C15: in the file with the entries `plain`, `mistyped`, `hooked`, `labelled`, the entry
`mistyped` parses and its hook annotation `pre-instal` is not a key of `events`, so it
declares none of the known hook types; `sort` returns no error, puts `hooked` in the hooks
and `plain` and `labelled` in the generic manifests, and drops `mistyped`: it is in neither
list. -/
theorem sort_drops_unknown_hook :
    unmarshalScenario "mistyped" =
      .ok ⟨"batch/v1", "Job", some ⟨"mistyped", [("helm.sh/hook", "pre-instal")]⟩⟩ ∧
    eventsTable.lookup "pre-instal" = none ∧
    manifestFile.sort unmarshalScenario atoiNone eventsTable fileScenario ⟨[], []⟩ =
      (none,
        ⟨[⟨"hooked", "Job", "templates/all.yaml", "hooked", ["pre-install", "post-install"], 0,
            []⟩],
         [⟨"templates/all.yaml", "plain", ⟨"v1", "ConfigMap", some ⟨"plain", []⟩⟩⟩,
          ⟨"templates/all.yaml", "labelled",
            ⟨"v1", "ConfigMap", some ⟨"labelled", [("owner", "team")]⟩⟩⟩]⟩) ∧
    (∀ g ∈ (manifestFile.sort unmarshalScenario atoiNone eventsTable fileScenario
        ⟨[], []⟩).2.generic, g.Content ≠ "mistyped") ∧
    (∀ h ∈ (manifestFile.sort unmarshalScenario atoiNone eventsTable fileScenario
        ⟨[], []⟩).2.hooks, h.Manifest ≠ "mistyped") :=
  ⟨rfl, by decide, by decide, by decide, by decide⟩

end Releaseutil
